import Mathlib

/-!
Verification of the CMX 3600 EDL codec (decoder + encoder) against its
natural-language specification.

The Go sources are embedded shallowly:
* strings are `List Char` (Go iterates runes; all comparisons in the source
  are on exact characters),
* the regular expressions of the decoder are embedded as deterministic
  matching functions that implement the leftmost/greedy submatch semantics
  of Go's regexp package for those particular patterns (each pattern is
  analysed in a comment at its matcher),
* `float64` times of the external `opentime` package are modelled as exact
  rationals (`ℚ`); the package itself is not part of the repository, so its
  operations are modelled from the specification (each such definition says
  so in its doc comment),
* the `io.Writer` of the encoder is modelled as an accumulated output string,
* Go `int` results of `strconv.Atoi` with the error ignored are modelled with
  the documented clamping behaviour of `strconv.ParseInt`.

Rational arithmetic is implemented through `mkRat`-based helper functions
(`qadd`, `qsub`, ...) that the kernel can evaluate, with bridge lemmas
relating them to the field operations of `ℚ`.
-/

abbrev Str := List Char

/-- Kernel-evaluable addition on `ℚ` (the `+` of `ℚ` does not reduce). -/
def qadd (a b : ℚ) : ℚ := mkRat (a.num * b.den + b.num * a.den) (a.den * b.den)

/-- Kernel-evaluable subtraction on `ℚ`. -/
def qsub (a b : ℚ) : ℚ := mkRat (a.num * b.den - b.num * a.den) (a.den * b.den)

/-- Kernel-evaluable multiplication on `ℚ`. -/
def qmul (a b : ℚ) : ℚ := mkRat (a.num * b.num) (a.den * b.den)

/-- Kernel-evaluable division on `ℚ` (division by zero gives zero, as in `ℚ`). -/
def qdiv (a b : ℚ) : ℚ :=
  mkRat (a.num * b.den * (if b.num < 0 then -1 else 1)) (a.den * b.num.natAbs)

theorem qadd_eq (a b : ℚ) : qadd a b = a + b := by
  rw [qadd, Rat.mkRat_eq_divInt]
  conv_rhs => rw [← Rat.num_divInt_den a, ← Rat.num_divInt_den b]
  rw [Rat.divInt_add_divInt _ _ (by exact_mod_cast a.den_nz) (by exact_mod_cast b.den_nz)]
  push_cast
  ring_nf

theorem qsub_eq (a b : ℚ) : qsub a b = a - b := by
  rw [qsub, Rat.mkRat_eq_divInt]
  conv_rhs => rw [← Rat.num_divInt_den a, ← Rat.num_divInt_den b]
  rw [Rat.divInt_sub_divInt _ _ (by exact_mod_cast a.den_nz) (by exact_mod_cast b.den_nz)]
  push_cast
  ring_nf

theorem qmul_eq (a b : ℚ) : qmul a b = a * b := by
  rw [qmul, Rat.mkRat_eq_divInt]
  conv_rhs => rw [← Rat.num_divInt_den a, ← Rat.num_divInt_den b]
  rw [Rat.divInt_mul_divInt']
  push_cast
  ring_nf

theorem qdiv_eq (a b : ℚ) : qdiv a b = a / b := by
  rw [qdiv, Rat.mkRat_eq_divInt, Rat.div_def']
  rcases lt_or_ge b.num 0 with h | h
  · rw [if_pos h]
    push_cast
    rw [abs_of_neg h]
    rw [show (a.den : ℤ) * -b.num = -((a.den : ℤ) * b.num) by ring, Rat.divInt_neg]
    congr 1
    ring
  · rw [if_neg (not_lt.mpr h)]
    push_cast
    rw [abs_of_nonneg h]
    congr 1
    ring

/-! ## Character classes and string helpers

These mirror the operations of Go's `strings` package used by the source
(`TrimSpace`, `HasPrefix`, `HasSuffix`, `TrimPrefix`, `ToUpper`, `Map`).
Whitespace is Go's ASCII `unicode.IsSpace` set restricted to the characters
that can occur on a scanned line (a line never contains `'\n'`).
-/

/-- Go `unicode.IsSpace` on the ASCII range. -/
def isSp (c : Char) : Bool :=
  c = ' ' ∨ c = '\t' ∨ c = '\n' ∨ c = '\r' ∨ c = '\x0b' ∨ c = '\x0c'

def isDigitCh (c : Char) : Bool := '0' ≤ c ∧ c ≤ '9'

/-- `[0-9A-Za-z_]`, the `\w` class of Go's regexp. -/
def isWordCh (c : Char) : Bool :=
  ('0' ≤ c ∧ c ≤ '9') ∨ ('A' ≤ c ∧ c ≤ 'Z') ∨ ('a' ≤ c ∧ c ≤ 'z') ∨ c = '_'

/-- The characters kept unchanged by `SanitizeReelName`. -/
def isReelCh (c : Char) : Bool :=
  ('A' ≤ c ∧ c ≤ 'Z') ∨ ('a' ≤ c ∧ c ≤ 'z') ∨ ('0' ≤ c ∧ c ≤ '9') ∨ c = '_'

def trimLeftSp (s : Str) : Str := s.dropWhile isSp

def trimRightSp (s : Str) : Str := (s.reverse.dropWhile isSp).reverse

/-- Go `strings.TrimSpace`. -/
def trimSp (s : Str) : Str := trimRightSp (trimLeftSp s)

/-- Go `strings.HasPrefix`. -/
def hasPfx (s p : Str) : Bool :=
  match p, s with
  | [], _ => true
  | _ :: _, [] => false
  | pc :: pr, sc :: sr => pc = sc ∧ hasPfx sr pr

/-- Go `strings.HasSuffix`. -/
def hasSfx (s p : Str) : Bool := hasPfx s.reverse p.reverse

/-- Go `strings.TrimPrefix` followed by nothing: just drop `p.length` characters
(used only where `hasPfx` already holds). -/
def dropPfx (s p : Str) : Str := s.drop p.length

/-- Go `strings.ToUpper` restricted to ASCII (every string the source compares
case-insensitively is ASCII). -/
def toUpperStr (s : Str) : Str :=
  s.map fun c => if 'a' ≤ c ∧ c ≤ 'z' then Char.ofNat (c.toNat - 32) else c

/-- Numeric value of a digit string (the value `strconv.Atoi` computes before
range checking). -/
def natOfDigits (s : Str) : Nat :=
  s.foldl (fun acc c => 10 * acc + (c.toNat - 48)) 0

/-- Largest Go `int` (64-bit). -/
def goMaxInt : Nat := 9223372036854775807

/-- Go `strconv.Atoi` on a nonempty all-digit string with the error ignored:
on overflow `ParseInt` documents that the clamped maximum is returned. -/
def atoiClamp (s : Str) : Int :=
  let v := natOfDigits s
  if v ≤ goMaxInt then (v : Int) else (goMaxInt : Int)

/-- Decimal digits of a natural number, most significant first (fuel-based so
that the kernel evaluates it). -/
def natDigitsAux : Nat → Nat → Str → Str
  | 0, _, acc => acc
  | fuel + 1, n, acc =>
    let d := Char.ofNat (48 + n % 10)
    if n < 10 then d :: acc else natDigitsAux fuel (n / 10) (d :: acc)

def natDigits (n : Nat) : Str := natDigitsAux (n + 1) n []

/-- Go `fmt.Sprintf "%0*d"` for a nonnegative value: left-pad with zeros to
the given width. -/
def padZeros (width : Nat) (s : Str) : Str :=
  List.replicate (width - s.length) '0' ++ s

/-- Go `%03d` (the only widths used are 3 and 2; negative values never occur
on the encode path but are rendered sign-first as Go does). -/
def fmtInt0 (width : Nat) (v : Int) : Str :=
  if v < 0 then '-' :: padZeros (width - 1) (natDigits v.natAbs)
  else padZeros width (natDigits v.natAbs)

/-- Go `%-*s`: right-pad with spaces to the given width. -/
def padRight (width : Nat) (s : Str) : Str :=
  s ++ List.replicate (width - s.length) ' '

/-! ## The external time model

The repository depends on `gotio/opentime` and `gotio/opentimelineio`, which
are not part of the repository.  Per the specification these collaborators are
"specified only at their interface boundary" (§6), so every definition in this
section is modelled from the specification's interface description.  Times are
exact rationals rather than `float64`; every scenario exercised by the claims
stays within integral frame counts where the two agree.
-/

/-- Modelled from the spec: a rational time is "frame count + rate" (§2, §3);
it "exposes value, rate, add, subtract, rescale, and timecode conversion"
(§6). -/
structure RationalTime where
  value : ℚ
  rate : ℚ
deriving DecidableEq, Repr

/-- The Go zero value `opentime.RationalTime{}`. -/
def rtZeroValue : RationalTime := ⟨0, 0⟩

/-- Modelled from the spec: `IsValidTime`; a time is valid when its rate is
positive (an unset zero-value time is invalid). -/
def RationalTime.isValid (t : RationalTime) : Bool := 0 < t.rate

/-- Modelled from the spec: `opentime.NewRationalTime value rate`. -/
def rtNew (value rate : ℚ) : RationalTime := ⟨value, rate⟩

/-- Modelled from the spec: `RescaledTo` converts the value to a new rate. -/
def RationalTime.rescaledTo (t : RationalTime) (newRate : ℚ) : RationalTime :=
  ⟨qdiv (qmul t.value newRate) t.rate, newRate⟩

/-- Modelled from the spec: addition; the result carries the left operand's
rate, the right operand being rescaled to it (both operands always share a
rate in this codec). -/
def RationalTime.add (a b : RationalTime) : RationalTime :=
  ⟨qadd a.value (qdiv (qmul b.value a.rate) b.rate), a.rate⟩

/-- Modelled from the spec: subtraction, same convention as `add`. -/
def RationalTime.sub (a b : RationalTime) : RationalTime :=
  ⟨qsub a.value (qdiv (qmul b.value a.rate) b.rate), a.rate⟩

/-- Modelled from the spec: `DurationFromStartEndTime` is "source-out −
source-in" (§4.3) at the start time's rate. -/
def durationFromStartEnd (startT endT : RationalTime) : RationalTime :=
  ⟨qsub (qdiv (qmul endT.value startT.rate) endT.rate) startT.value, startT.rate⟩

/-- Value of a two-digit timecode field. -/
def tcField (a b : Char) : Nat := (a.toNat - 48) * 10 + (b.toNat - 48)

/-- Modelled from the spec: the Timecode/Rate Utility "converts between a
frame-rate-qualified timecode string (`HH:MM:SS:FF` or drop-frame
`HH:MM:SS;FF`) and a rational time value (frame count + rate)" (§2), where a
timecode addresses a frame (glossary).  The model requires an integral
positive rate and in-range minute/second/frame fields, and (like the real
library) rejects a drop-frame separator at a non-drop-frame rate; all claims
operate at rate 24. -/
def fromTimecode (s : Str) (rate : ℚ) : Except Str RationalTime :=
  match s with
  | [h1, h2, ':', m1, m2, ':', s1, s2, sep, f1, f2] =>
    if (isDigitCh h1 ∧ isDigitCh h2 ∧ isDigitCh m1 ∧ isDigitCh m2 ∧
        isDigitCh s1 ∧ isDigitCh s2 ∧ isDigitCh f1 ∧ isDigitCh f2 : Bool) then
      if sep = ':' then
        if 0 < rate.num ∧ rate.den = 1 then
          let r := rate.num.toNat
          let hh := tcField h1 h2
          let mm := tcField m1 m2
          let ss := tcField s1 s2
          let ff := tcField f1 f2
          if mm < 60 ∧ ss < 60 ∧ ff < r then
            .ok ⟨mkRat (((hh * 60 + mm) * 60 + ss) * r + ff) 1, rate⟩
          else .error "timecode field out of range".data
        else .error "rate not supported".data
      else .error "drop frame timecode at non drop frame rate".data
    else .error "invalid timecode".data
  | _ => .error "invalid timecode".data

def pad2 (n : Nat) : Str := [Char.ofNat (48 + n / 10 % 10), Char.ofNat (48 + n % 10)]

/-- Modelled from the spec: `ToTimecode` renders an integral nonnegative frame
count below 100 hours at an integral positive rate as `HH:MM:SS:FF` (§4.4);
anything else is a conversion error. -/
def toTimecode (t : RationalTime) (rate : ℚ) : Except Str Str :=
  if 0 < rate.num ∧ rate.den = 1 ∧ t.value.den = 1 ∧ 0 ≤ t.value.num then
    let r := rate.num.toNat
    let v := t.value.num.toNat
    if v < 360000 * r then
      .ok (pad2 (v / (3600 * r)) ++ ':' :: pad2 (v / (60 * r) % 60) ++
           ':' :: pad2 (v / r % 60) ++ ':' :: pad2 (v % r))
    else .error "timecode out of range".data
  else .error "cannot convert to timecode".data

/-- Modelled from the spec: a time range "source range = [source-in,
source-out − source-in)" (§4.3) is a start time plus a duration. -/
structure TimeRange where
  startTime : RationalTime
  duration : RationalTime
deriving DecidableEq, Repr

/-- Modelled from the spec: a media reference "is polymorphic over
{external (target identifier), generator (kind)}" (§6). -/
inductive MediaReference
  | external (name targetURL : Str) (availableRange : Option TimeRange)
  | generator (name generatorKind : Str) (availableRange : Option TimeRange)
deriving DecidableEq, Repr

def MediaReference.name : MediaReference → Str
  | .external n _ _ => n
  | .generator n _ _ => n

def MediaReference.availableRange : MediaReference → Option TimeRange
  | .external _ _ r => r
  | .generator _ _ r => r

/-- ASC CDL coefficients.  The source stores parsed `float64` values; since no
verified property observes the numbers, the model keeps the matched source
tokens verbatim (an absent field is the Go zero value 0.0). -/
structure ASCCDLTok where
  slope : List Str := []
  offset : List Str := []
  power : List Str := []
  saturation : Option Str := none
deriving DecidableEq, Repr

/-- Modelled from the spec: effects are "time-warp vs freeze-frame" (§9).  The
linear time warp's scalar is "effect speed ÷ decode rate" (§4.3); the speed is
kept as its source token (a `float64` in the source) together with the rate. -/
inductive Effect
  | linearTimeWarp (name effectName : Str) (speedTok : Str) (rate : ℚ)
  | freezeFrame (name : Str)
deriving DecidableEq, Repr

/-- Modelled from the spec: a marker with a zero-duration range, a color token
carried verbatim, and a comment (§4.3, §6). -/
structure MarkerM where
  name : Str
  markedRange : TimeRange
  color : Str
  comment : Str
  colorMeta : Option Str
deriving DecidableEq, Repr

/-- Modelled from the spec: "a clip exposes name, a source time-range, a media
reference, an effect list, a marker list, and a metadata map" (§6).  The
metadata map holds at most the `cdl` and `wipe_code` entries the decoder
writes. -/
structure Clip where
  name : Str
  mediaRef : Option MediaReference
  sourceRange : Option TimeRange
  metaCDL : Option ASCCDLTok
  metaWipeCode : Option Str
  effects : List Effect
  markers : List MarkerM
deriving DecidableEq, Repr

/-- Modelled from the spec: track children "are polymorphic over {clip, gap,
transition}" (§6); a transition "exposes a kind, in-offset, out-offset,
optional name". -/
inductive TrackItem
  | clipItem (c : Clip)
  | gapItem (duration : RationalTime)
  | transitionItem (name ttype : Str) (inOffset outOffset : RationalTime)
deriving DecidableEq, Repr

/-- Modelled from the spec: "each track has a kind (video/audio) and an
ordered, mutable child sequence" (§6). -/
structure Track where
  name : Str
  kind : Str
  children : List TrackItem
deriving DecidableEq, Repr

/-- Modelled from the spec: "a timeline with a title and an ordered container
of tracks" (§6). -/
structure Timeline where
  name : Str
  tracks : List Track
deriving DecidableEq, Repr

def trackKindVideo : Str := "Video".data
def trackKindAudio : Str := "Audio".data

/-- The transition kind the encoder tests against the literal
`"SMPTE_Dissolve"` (encoder.go line 188), also produced by the decoder. -/
def transitionTypeSMPTEDissolve : Str := "SMPTE_Dissolve".data

/-- The custom (wipe) transition kind of the external model. -/
def transitionTypeCustom : Str := "Custom_Transition".data

def Timeline.videoTracks (t : Timeline) : List Track :=
  t.tracks.filter fun tr => tr.kind = trackKindVideo

def Timeline.audioTracks (t : Timeline) : List Track :=
  t.tracks.filter fun tr => tr.kind = trackKindAudio

/-- Modelled from the spec: `Clip.Duration` is the duration of the source
range, falling back to the media reference's available range. -/
def Clip.duration (c : Clip) : Except Str RationalTime :=
  match c.sourceRange with
  | some r => .ok r.duration
  | none =>
    match c.mediaRef.bind MediaReference.availableRange with
    | some r => .ok r.duration
    | none => .error "no source or available range".data

/-- Modelled from the spec: the source range of a clip, falling back to the
available range (encoder.go lines 153-161). -/
def Clip.rangeForEncode (c : Clip) : Except Str TimeRange :=
  match c.sourceRange with
  | some r => .ok r
  | none =>
    match c.mediaRef.bind MediaReference.availableRange with
    | some r => .ok r
    | none => .error "no source or available range".data

/-! ## EDL data types (part_000 of the source)

Edit types and track types are string-valued constants in the source; they are
kept as `Str` values here.
-/

def editTypeCut : Str := "C".data
def editTypeDissolve : Str := "D".data
def editTypeWipe : Str := "W".data
def editTypeKeyBackground : Str := "KB".data
def editTypeKey : Str := "K".data

def trackTypeVideo : Str := "V".data
def trackTypeAudio : Str := "A".data
def trackTypeAudio1 : Str := "A1".data
def trackTypeAudio2 : Str := "A2".data
def trackTypeAudio3 : Str := "A3".data
def trackTypeAudio4 : Str := "A4".data

/-- `TrackType.IsVideoTrack`. -/
def isVideoTrackTT (t : Str) : Bool := t = trackTypeVideo

/-- `TrackType.IsAudioTrack`: exactly `A`, `A1`..`A4` (note: the event-line
grammar also admits `AA` and other `A<digit>` tokens, which this returns
`false` for). -/
def isAudioTrackTT (t : Str) : Bool :=
  t = trackTypeAudio ∨ t = trackTypeAudio1 ∨ t = trackTypeAudio2 ∨
  t = trackTypeAudio3 ∨ t = trackTypeAudio4

/-- `SpeedEffect`: the speed multiplier is a `float64` in the source; it is
kept as its source token since no verified property observes the number. -/
structure SpeedEffect where
  name : Str
  speedTok : Str
  timecode : Str
deriving DecidableEq, Repr

/-- `Marker` of the decoder's intermediate event record. -/
structure EDLMarker where
  timecode : Str
  color : Str
  comment : Str
deriving DecidableEq, Repr

/-- `EDLEvent`, the decoder's intermediate unit (fields and defaults exactly
as the Go struct's zero values). -/
structure EDLEvent where
  eventNumber : Int := 0
  reelName : Str := []
  trackType : Str := []
  editType : Str := []
  sourceIn : Str := []
  sourceOut : Str := []
  recordIn : Str := []
  recordOut : Str := []
  comment : Str := []
  clipName : Str := []
  transitionDuration : Int := 0
  wipeCode : Str := []
  speedEffect : Option SpeedEffect := none
  freezeFrame : Bool := false
  filePath : Str := []
  markers : List EDLMarker := []
  asccdl : Option ASCCDLTok := none
deriving DecidableEq, Repr

/-- `DefaultReelNameLength`. -/
def defaultReelNameLength : Int := 8

/-- `SanitizeReelName` (part_000 lines 122-142).  Go truncates by bytes, but
after the map every character is ASCII, so bytes and characters coincide. -/
def SanitizeReelName (name : Str) (maxLength : Int) : Str :=
  let mapped := name.map fun r => if isReelCh r then r else '_'
  let trunc :=
    if maxLength > 0 ∧ (mapped.length : Int) > maxLength then
      mapped.take maxLength.toNat
    else mapped
  if trunc = [] then "AX".data else trunc

/-- The decoder's two error shapes: `ParseError` carries a 1-based physical
line number; every other failure (the wrapped timecode-conversion errors of
`createTrack`) carries only a message. -/
inductive DecodeErr
  | parse (line : Nat) (msg : Str)
  | other (msg : Str)
deriving DecidableEq, Repr

def DecodeErr.isParseErr : DecodeErr → Bool
  | .parse _ _ => true
  | .other _ => false

/-! ## Decoder line matchers

Each Go regular expression is embedded as a deterministic function.  Go's
regexp package implements leftmost-first (Perl-preference) submatch
semantics; for each of these patterns greedy maximal-munch is exact because
every adjacent pair of subpatterns draws from disjoint character classes, so
backtracking can never produce a different split — except where noted
(the marker pattern), where the backtracking case is handled explicitly.
-/

def headIsSp : Str → Bool
  | [] => false
  | c :: _ => isSp c

/-- Captures of `eventLineRegex`:
`^\s*(\d+)\s+(\S+)\s+(V|A\d?|AA)\s+(C|D|W\d{3}|KB|K)\s*(\d+)?`. -/
structure EventHeader where
  numStr : Str
  reel : Str
  trackTok : Str
  editTok : Str
  durStr : Str
deriving DecidableEq, Repr

/-- The `(V|A\d?|AA)\s+` part: each alternative must be followed by
whitespace; the alternation preference (`V`, then `A` with an optional
digit, then `AA`) together with that requirement yields exactly these
cases.  The whitespace itself is left in the remainder. -/
def matchTrackTok : Str → Option (Str × Str)
  | 'V' :: r => if headIsSp r then some (['V'], r) else none
  | 'A' :: c :: r =>
    if isDigitCh c then (if headIsSp r then some (['A', c], r) else none)
    else if c = 'A' then (if headIsSp r then some (['A', 'A'], r) else none)
    else if isSp c then some (['A'], c :: r)
    else none
  | _ => none

/-- The `(C|D|W\d{3}|KB|K)` alternation in preference order (`KB` before
`K`).  Nothing is required after the token: the trailing `\s*(\d+)?` of the
event-line pattern can match the empty string. -/
def matchEditTok : Str → Option (Str × Str)
  | 'C' :: r => some (['C'], r)
  | 'D' :: r => some (['D'], r)
  | 'W' :: d1 :: d2 :: d3 :: r =>
    if isDigitCh d1 ∧ isDigitCh d2 ∧ isDigitCh d3 then
      some (['W', d1, d2, d3], r)
    else none
  | 'K' :: 'B' :: r => some (['K', 'B'], r)
  | 'K' :: r => some (['K'], r)
  | _ => none

/-- `eventLineRegex.FindStringSubmatch` (anchored at the start by `^`).
`\d`, `\s` and `\S` are pairwise disjoint at every junction, so maximal
munch is exact; the track and edit alternations are handled by the two
helpers above. -/
def matchEventLine (s : Str) : Option EventHeader :=
  let s0 := s.dropWhile isSp
  let num := s0.takeWhile isDigitCh
  if num = [] then none else
  let s1 := s0.dropWhile isDigitCh
  if ¬ headIsSp s1 then none else
  let s2 := s1.dropWhile isSp
  let reel := s2.takeWhile fun c => !isSp c
  if reel = [] then none else
  let s3 := s2.dropWhile fun c => !isSp c
  if ¬ headIsSp s3 then none else
  match matchTrackTok (s3.dropWhile isSp) with
  | none => none
  | some (trk, s5) =>
    match matchEditTok (s5.dropWhile isSp) with
    | none => none
    | some (edit, s7) =>
      let durStr := (s7.dropWhile isSp).takeWhile isDigitCh
      some ⟨num, reel, trk, edit, durStr⟩

/-- One `\d{2}:\d{2}:\d{2}[;:]\d{2}` token (fixed shape, so no backtracking
questions arise). -/
def matchTCTok : Str → Option (Str × Str)
  | h1 :: h2 :: ':' :: m1 :: m2 :: ':' :: s1 :: s2 :: sep :: f1 :: f2 :: r =>
    if isDigitCh h1 ∧ isDigitCh h2 ∧ isDigitCh m1 ∧ isDigitCh m2 ∧
       isDigitCh s1 ∧ isDigitCh s2 ∧ (sep = ':' ∨ sep = ';') ∧
       isDigitCh f1 ∧ isDigitCh f2 then
      some ([h1, h2, ':', m1, m2, ':', s1, s2, sep, f1, f2], r)
    else none
  | _ => none

/-- One `\d{2}:\d{2}:\d{2}:\d{2}` token (colon separators only), used by the
marker and speed-effect patterns. -/
def matchTCTokC : Str → Option (Str × Str)
  | h1 :: h2 :: ':' :: m1 :: m2 :: ':' :: s1 :: s2 :: ':' :: f1 :: f2 :: r =>
    if isDigitCh h1 ∧ isDigitCh h2 ∧ isDigitCh m1 ∧ isDigitCh m2 ∧
       isDigitCh s1 ∧ isDigitCh s2 ∧ isDigitCh f1 ∧ isDigitCh f2 then
      some ([h1, h2, ':', m1, m2, ':', s1, s2, ':', f1, f2], r)
    else none
  | _ => none

/-- `timecodeLineRegex`: `^\s*(tc)\s+(tc)\s+(tc)\s+(tc)`; between tokens at
least one whitespace character is required, and nothing is required after
the fourth token. -/
def matchTimecodeLine (s : Str) : Option (Str × Str × Str × Str) :=
  match matchTCTok (s.dropWhile isSp) with
  | none => none
  | some (t1, r1) =>
    if ¬ headIsSp r1 then none else
    match matchTCTok (r1.dropWhile isSp) with
    | none => none
    | some (t2, r2) =>
      if ¬ headIsSp r2 then none else
      match matchTCTok (r2.dropWhile isSp) with
      | none => none
      | some (t3, r3) =>
        if ¬ headIsSp r3 then none else
        match matchTCTok (r3.dropWhile isSp) with
        | none => none
        | some (t4, _) => some (t1, t2, t3, t4)

/-- `markerRegex`:
`^\*\s*LOC:\s+(\d{2}:\d{2}:\d{2}:\d{2})\s+(\w*)(\s+|$)(.*)`.
The one genuine backtracking case of the decoder's patterns: when the
greedy `\s+` after the timecode consumes all spaces and the following
`(\w*)(\s+|$)` then fails (the first non-space character block is not
followed by whitespace or end of line), the engine gives one space back to
`(\s+|$)`, making the color group empty — possible only when at least two
spaces follow the timecode.  The comment capture is Go
`strings.TrimSpace(matches[4])`. -/
def matchMarkerLine (s : Str) : Option EDLMarker :=
  match s with
  | '*' :: r0 =>
    let r1 := r0.dropWhile isSp
    if hasPfx r1 "LOC:".data then
      let r2 := dropPfx r1 "LOC:".data
      if ¬ headIsSp r2 then none else
      match matchTCTokC (r2.dropWhile isSp) with
      | none => none
      | some (tc, r3) =>
        if ¬ headIsSp r3 then none else
        let content := r3.dropWhile isSp
        let word := content.takeWhile isWordCh
        let after := content.dropWhile isWordCh
        match after with
        | [] => some ⟨tc, word, []⟩
        | c :: _ =>
          if isSp c then some ⟨tc, word, trimSp (after.dropWhile isSp)⟩
          else if 2 ≤ (r3.takeWhile isSp).length then
            some ⟨tc, [], trimSp content⟩
          else none
    else none
  | _ => none

/-- `([-+]?[\d.]+)`: an optional sign followed by a nonempty run of digits
and dots.  If the run after a sign is empty the engine retries without the
sign, which also fails since a sign character is not in `[\d.]`. -/
def matchNum (s : Str) : Option (Str × Str) :=
  let (sign, s1) :=
    match s with
    | '-' :: r => (['-'], r)
    | '+' :: r => (['+'], r)
    | _ => (([] : Str), s)
  let body := s1.takeWhile fun c => isDigitCh c ∨ c = '.'
  if body = [] then none
  else some (sign ++ body, s1.dropWhile fun c => isDigitCh c ∨ c = '.')

/-- One `\(\s*num[,\s]+num[,\s]+num\s*\)` triple of `ascSOPRegex`; all
junctions are between disjoint character classes. -/
def headIsCommaSp : Str → Bool
  | [] => false
  | c :: _ => c = ',' ∨ isSp c

def matchSOPTriple (s : Str) : Option ((Str × Str × Str) × Str) :=
  match s with
  | '(' :: r0 =>
    match matchNum (r0.dropWhile isSp) with
    | none => none
    | some (n1, r2) =>
      if ¬ headIsCommaSp r2 then none else
      match matchNum (r2.dropWhile fun c => c = ',' ∨ isSp c) with
      | none => none
      | some (n2, r3) =>
        if ¬ headIsCommaSp r3 then none else
        match matchNum (r3.dropWhile fun c => c = ',' ∨ isSp c) with
        | none => none
        | some (n3, r4) =>
          match r4.dropWhile isSp with
          | ')' :: r5 => some ((n1, n2, n3), r5)
          | _ => none
  | _ => none

/-- `ascSOPRegex` anchored at the current position:
`ASC_SOP\s*\(...\)\s*\(...\)\s*\(...\)`. -/
def matchSOPAt (s : Str) : Option (List Str) :=
  if hasPfx s "ASC_SOP".data then
    match matchSOPTriple ((dropPfx s "ASC_SOP".data).dropWhile isSp) with
    | none => none
    | some ((a1, a2, a3), r1) =>
      match matchSOPTriple (r1.dropWhile isSp) with
      | none => none
      | some ((b1, b2, b3), r2) =>
        match matchSOPTriple (r2.dropWhile isSp) with
        | none => none
        | some ((c1, c2, c3), _) => some [a1, a2, a3, b1, b2, b3, c1, c2, c3]
  else none

/-- `ascSOPRegex` is unanchored: Go tries every start position left to
right (leftmost match). -/
def searchSOP : Str → Option (List Str)
  | [] => none
  | c :: r =>
    match matchSOPAt (c :: r) with
    | some g => some g
    | none => searchSOP r

/-- `ascSATRegex` anchored at the current position: `ASC_SAT\s+num`. -/
def matchSATAt (s : Str) : Option Str :=
  if hasPfx s "ASC_SAT".data then
    let r0 := dropPfx s "ASC_SAT".data
    if headIsSp r0 then (matchNum (r0.dropWhile isSp)).map (·.1) else none
  else none

/-- `ascSATRegex`, unanchored leftmost search. -/
def searchSAT : Str → Option Str
  | [] => none
  | c :: r =>
    match matchSATAt (c :: r) with
    | some v => some v
    | none => searchSAT r

/-- `speedEffectRegex`: `^M2\s+(\S+)\s+(-?[0-9.]+)\s+(\d{2}:\d{2}:\d{2}:\d{2})`
(matched against the raw, untrimmed line). -/
def matchSpeedLine (s : Str) : Option SpeedEffect :=
  if hasPfx s "M2".data then
    let r0 := dropPfx s "M2".data
    if ¬ headIsSp r0 then none else
    let r1 := r0.dropWhile isSp
    let nm := r1.takeWhile fun c => !isSp c
    if nm = [] then none else
    let r2 := r1.dropWhile fun c => !isSp c
    if ¬ headIsSp r2 then none else
    let r3 := r2.dropWhile isSp
    let (sign, r4) :=
      match r3 with
      | '-' :: t => (['-'], t)
      | _ => (([] : Str), r3)
    let body := r4.takeWhile fun c => isDigitCh c ∨ c = '.'
    if body = [] then none else
    let r5 := r4.dropWhile fun c => isDigitCh c ∨ c = '.'
    if ¬ headIsSp r5 then none else
    match matchTCTokC (r5.dropWhile isSp) with
    | some (tc, _) => some ⟨nm, sign ++ body, tc⟩
    | none => none
  else none

/-! ## Event accumulation (`Decoder.parseEvents`) -/

/-- The comment-line dispatch prefixes of `parseEvents` (lines 346-401). -/
def pfxFromClipNameA : Str := "*FROM CLIP NAME:".data
def pfxFromClipNameB : Str := "* FROM CLIP NAME:".data
def pfxFromClipA : Str := "*FROM CLIP:".data
def pfxFromClipB : Str := "* FROM CLIP:".data
def pfxFromFileA : Str := "*FROM FILE:".data
def pfxFromFileB : Str := "* FROM FILE:".data
def pfxFreezeFrame : Str := "* FREEZE FRAME".data
def sfxFF : Str := " FF".data
def pfxStar : Str := "*".data
def pfxM2 : Str := "M2".data
def pfxTitle : Str := "TITLE:".data
def pfxFCM : Str := "FCM:".data

/-- Building a fresh `EDLEvent` from a matched event header (lines 277-303):
the wipe form `W###` (length 4, first byte `W`) becomes edit type `W` with
the token stored as the wipe code. -/
def mkEvent (h : EventHeader) : EDLEvent :=
  let isWipe : Bool := h.editTok.length = 4 ∧ h.editTok.headI = 'W'
  { eventNumber := atoiClamp h.numStr
    reelName := h.reel
    trackType := h.trackTok
    editType := if isWipe then editTypeWipe else h.editTok
    wipeCode := if isWipe then h.editTok else []
    transitionDuration := if h.durStr = [] then 0 else atoiClamp h.durStr }

/-- Updating the CDL record from a nine-token `ASC_SOP` match (lines
374-386): the record is created if absent and its saturation is kept. -/
def updateSOP (old : Option ASCCDLTok) (g : List Str) : ASCCDLTok :=
  let base := old.getD {}
  { base with
    slope := g.take 3
    offset := (g.drop 3).take 3
    power := g.drop 6 }

/-- Updating the CDL record from an `ASC_SAT` match (lines 387-395). -/
def updateSAT (old : Option ASCCDLTok) (v : Str) : ASCCDLTok :=
  { old.getD {} with saturation := some v }

/-- The comment-line dispatch chain applied to an open event (lines
341-402); `t` is the trimmed line.  The branch order is exactly the
`else if` chain of the source: the two clip-name prefixes, the four
file-path prefixes, the freeze-frame test (`* FREEZE FRAME` prefix or a
trailing `" FF"`), the locator pattern, `ASC_SOP`, `ASC_SAT`, and finally
any other `*`-line appended (newline-joined) to the free comment. -/
def applyCommentLine (ev : EDLEvent) (t : Str) : EDLEvent :=
  if hasPfx t pfxFromClipNameA then
    { ev with clipName := trimSp (dropPfx t pfxFromClipNameA) }
  else if hasPfx t pfxFromClipNameB then
    { ev with clipName := trimSp (dropPfx t pfxFromClipNameB) }
  else if hasPfx t pfxFromClipA then
    { ev with filePath := trimSp (dropPfx t pfxFromClipA) }
  else if hasPfx t pfxFromClipB then
    { ev with filePath := trimSp (dropPfx t pfxFromClipB) }
  else if hasPfx t pfxFromFileA then
    { ev with filePath := trimSp (dropPfx t pfxFromFileA) }
  else if hasPfx t pfxFromFileB then
    { ev with filePath := trimSp (dropPfx t pfxFromFileB) }
  else if hasPfx t pfxFreezeFrame ∨ hasSfx t sfxFF then
    { ev with freezeFrame := true }
  else
    match matchMarkerLine t with
    | some m => { ev with markers := ev.markers ++ [m] }
    | none =>
      match searchSOP t with
      | some g => { ev with asccdl := some (updateSOP ev.asccdl g) }
      | none =>
        match searchSAT t with
        | some v => { ev with asccdl := some (updateSAT ev.asccdl v) }
        | none =>
          if hasPfx t pfxStar then
            { ev with comment :=
                if ev.comment = [] then t else ev.comment ++ '\n' :: t }
          else ev

/-- The captured FCM mode: Go `strings.SplitN(trimmed, ":", 2)[1]` trimmed
(the line is known to start with `FCM:`, so the split always has two
parts). -/
def fcmValue (t : Str) : Str := trimSp ((t.dropWhile fun c => c ≠ ':').drop 1)

def msgExpectedTC : Str := "expected timecode line after event".data

/-- A line skipped before event matching: blank, `TITLE:`, or `FCM:`
(parseEvents lines 250-268). -/
def isSkipLine (t : Str) : Bool :=
  t = [] ∨ hasPfx t pfxTitle ∨ hasPfx t pfxFCM

/-- The FCM mode after a skipped line: an `FCM:` line updates it, blank and
`TITLE:` lines leave it unchanged. -/
def stepFcm (t : Str) (fcm : Str) : Str :=
  if hasPfx t pfxFCM then fcmValue t else fcm

/-- Processing of a non-header, non-skipped line against the open event
(lines 324-403): an `M2`-prefixed line records a speed effect when the raw
line matches the speed pattern (and is consumed either way); any other line
goes through the comment dispatch chain; with no open event the line is
ignored. -/
def stepOther (cur : Option EDLEvent) (line t : Str) : Option EDLEvent :=
  match cur with
  | none => none
  | some ev =>
    if hasPfx t pfxM2 then
      match matchSpeedLine line with
      | some se => some { ev with speedEffect := some se }
      | none => some ev
    else some (applyCommentLine ev t)

/-- Timecode captures installed into a fresh event (lines 310-313). -/
def setTimecodes (ev : EDLEvent) (tcs : Str × Str × Str × Str) : EDLEvent :=
  { ev with
    sourceIn := tcs.1, sourceOut := tcs.2.1
    recordIn := tcs.2.2.1, recordOut := tcs.2.2.2 }

/-- The scanning loop of `Decoder.parseEvents` (lines 246-415) over the
already-scanned lines.  `n` counts the lines consumed so far (so the line at
the head of the list is physical line `n + 1`); `cur` is the currently open
event; `acc` the flushed events; `fcm` the decoder-wide FCM mode.  On an
event-header match the previous event is flushed and the next physical line
is consumed in the same step, as the source does with its nested
`scanner.Scan()`; if there is no next line the fresh event (with empty
timecode fields) survives to the final flush. -/
def parseLoop : List Str → Nat → Option EDLEvent → List EDLEvent → Str →
    Except DecodeErr (List EDLEvent × Str)
  | [], _, cur, acc, fcm => .ok (acc ++ cur.toList, fcm)
  | line :: rest, n, cur, acc, fcm =>
    let t := trimSp line
    if isSkipLine t then parseLoop rest (n + 1) cur acc (stepFcm t fcm)
    else
      match matchEventLine line with
      | some h =>
        match rest with
        | [] => .ok (acc ++ cur.toList ++ [mkEvent h], fcm)
        | tcl :: rest2 =>
          match matchTimecodeLine tcl with
          | some tcs =>
            parseLoop rest2 (n + 2) (some (setTimecodes (mkEvent h) tcs))
              (acc ++ cur.toList) fcm
          | none => .error (.parse (n + 2) msgExpectedTC)
      | none => parseLoop rest (n + 1) (stepOther cur line t) acc fcm

/-- `Decoder.parseEvents` on a list of scanned lines. -/
def parseEvents (lines : List Str) : Except DecodeErr (List EDLEvent × Str) :=
  parseLoop lines 0 none [] []

/-! ## Timeline Builder (`Decoder.createTrack`, `Decoder.eventsToTimeline`) -/

/-- Markers of a clip (lines 580-605): a marker whose timecode fails to
convert is skipped silently; the color token is carried verbatim, the
range has zero duration, and the metadata records the color when
nonempty. -/
def buildMarkers (rate : ℚ) (ms : List EDLMarker) : List MarkerM :=
  ms.filterMap fun m =>
    match fromTimecode m.timecode rate with
    | .ok tc =>
      some ⟨m.comment, ⟨tc, rtNew 0 rate⟩, m.color, m.comment,
            if m.color = [] then none else some m.color⟩
    | .error _ => none

/-- The clip built for one event (lines 492-617): media reference from the
reel name (`BLACK`/`BL` and `BARS` case-insensitively become generator
references, anything else an external reference targeting the
comment-derived file path if present, else the raw reel name), clip name
from the comment with reel-name fallback and freeze-frame `" FF"` suffix
stripping, CDL/wipe-code metadata, and speed/freeze effects. -/
def buildClip (rate : ℚ) (e : EDLEvent) (si so : RationalTime) : Clip :=
  let sourceRange : TimeRange := ⟨si, durationFromStartEnd si so⟩
  let reelUpper := toUpperStr e.reelName
  let mediaRef : MediaReference :=
    if reelUpper = "BLACK".data ∨ reelUpper = "BL".data then
      .generator "black".data "black".data (some sourceRange)
    else if reelUpper = "BARS".data then
      .generator "SMPTEBars".data "SMPTEBars".data (some sourceRange)
    else
      let targetURL := if e.filePath ≠ [] then e.filePath else e.reelName
      .external targetURL targetURL (some sourceRange)
  let clipName0 := if e.clipName = [] then e.reelName else e.clipName
  let clipName :=
    if e.freezeFrame ∧ hasSfx clipName0 sfxFF then
      clipName0.take (clipName0.length - 3)
    else clipName0
  let effects :=
    (match e.speedEffect with
     | some se => [Effect.linearTimeWarp [] "LinearTimeWarp".data se.speedTok rate]
     | none => []) ++
    (if e.freezeFrame then [Effect.freezeFrame []] else [])
  ⟨clipName, some mediaRef, some sourceRange, e.asccdl,
   if e.wipeCode ≠ [] then some e.wipeCode else none,
   effects, buildMarkers rate e.markers⟩

/-- Gap synthesis (lines 479-490): when the previous record-out is a valid
time and the elapsed value `recordIn - lastRecordOut` exceeds half a frame,
a gap of exactly that elapsed duration is produced. -/
def gapPart (last ri : RationalTime) : List TrackItem :=
  if last.isValid then
    let gap := ri.sub last
    if mkRat 1 2 < gap.value then [.gapItem gap] else []
  else []

/-- The transition emitted before a dissolve or wipe clip (lines 619-644). -/
def transPart (rate : ℚ) (e : EDLEvent) : List TrackItem :=
  if (e.editType = editTypeDissolve ∨ e.editType = editTypeWipe) ∧
      0 < e.transitionDuration then
    if e.editType = editTypeWipe then
      [.transitionItem
        (if e.wipeCode ≠ [] then e.wipeCode else "SMPTE_Wipe".data)
        transitionTypeCustom (rtNew 0 rate)
        (rtNew (mkRat e.transitionDuration 1) rate)]
    else
      [.transitionItem [] transitionTypeSMPTEDissolve (rtNew 0 rate)
        (rtNew (mkRat e.transitionDuration 1) rate)]
  else []

/-- The children appended for one event, in source order: optional gap,
optional transition, then the clip. -/
def eventSeg (rate : ℚ) (last : RationalTime) (e : EDLEvent)
    (si so ri : RationalTime) : List TrackItem :=
  gapPart last ri ++ transPart rate e ++ [.clipItem (buildClip rate e si so)]

/-- The wrapped timecode-conversion error messages of `createTrack`
(`fmt.Errorf "invalid ... timecode '%s': %w"`). -/
def tcErr (label tc inner : Str) : Str :=
  label ++ " '".data ++ tc ++ "': ".data ++ inner

/-- The per-event loop of `Decoder.createTrack` (lines 455-651), carrying
`lastRecordOut` (initially the invalid zero value). -/
def createTrackGo (rate : ℚ) : RationalTime → List EDLEvent →
    Except Str (List TrackItem)
  | _, [] => .ok []
  | last, e :: rest =>
    match fromTimecode e.sourceIn rate with
    | .error err => .error (tcErr "invalid source in timecode".data e.sourceIn err)
    | .ok si =>
      match fromTimecode e.sourceOut rate with
      | .error err => .error (tcErr "invalid source out timecode".data e.sourceOut err)
      | .ok so =>
        match fromTimecode e.recordIn rate with
        | .error err => .error (tcErr "invalid record in timecode".data e.recordIn err)
        | .ok ri =>
          match fromTimecode e.recordOut rate with
          | .error err => .error (tcErr "invalid record out timecode".data e.recordOut err)
          | .ok ro =>
            match createTrackGo rate ro rest with
            | .error err => .error err
            | .ok tail => .ok (eventSeg rate last e si so ri ++ tail)

/-- `Decoder.createTrack` (lines 444-654): the track kind is audio exactly
when `TrackType.IsAudioTrack` holds, else video. -/
def createTrack (rate : ℚ) (trackType : Str) (events : List EDLEvent) :
    Except Str Track :=
  match createTrackGo rate rtZeroValue events with
  | .error e => .error e
  | .ok items =>
    .ok ⟨trackType,
         if isAudioTrackTT trackType then trackKindAudio else trackKindVideo,
         items⟩

/-- The per-key event grouping `trackMap[event.TrackType]` (lines 424-427):
`append` preserves event order within a key. -/
def eventsGroup (events : List EDLEvent) (key : Str) : List EDLEvent :=
  events.filter fun e => e.trackType = key

/-- `Decoder.eventsToTimeline` (lines 419-441) for one iteration order of
the track map.  Go iterates `trackMap` with `range`, whose order is
deliberately unspecified; any permutation of the distinct track types is an
admissible schedule, so the order is a parameter here. -/
def tracksFor (rate : ℚ) (events : List EDLEvent) : List Str →
    Except Str (List Track)
  | [] => .ok []
  | k :: ks =>
    match createTrack rate k (eventsGroup events k) with
    | .error e => .error e
    | .ok tr =>
      match tracksFor rate events ks with
      | .error e => .error e
      | .ok ts => .ok (tr :: ts)

def eventsToTimelineWith (rate : ℚ) (order : List Str)
    (events : List EDLEvent) : Except DecodeErr Timeline :=
  match tracksFor rate events order with
  | .error e => .error (.other e)
  | .ok ts => .ok ⟨[], ts⟩

/-- The distinct track types in first-appearance order: one admissible
iteration order of the Go map (used as the canonical schedule of
`decodeLines`). -/
def firstSeenKeysAux (seen : List Str) : List EDLEvent → List Str
  | [] => []
  | e :: rest =>
    if e.trackType ∈ seen then firstSeenKeysAux seen rest
    else e.trackType :: firstSeenKeysAux (e.trackType :: seen) rest

def firstSeenKeys (events : List EDLEvent) : List Str :=
  firstSeenKeysAux [] events

/-- `Decoder.Decode` over scanned lines, with an explicit map-iteration
order. -/
def decodeLinesWith (rate : ℚ) (order : List Str) (lines : List Str) :
    Except DecodeErr Timeline :=
  match parseEvents lines with
  | .error e => .error e
  | .ok (evs, _) => eventsToTimelineWith rate order evs

/-- `Decoder.Decode` over scanned lines with the canonical (first-seen)
iteration order. -/
def decodeLines (rate : ℚ) (lines : List Str) : Except DecodeErr Timeline :=
  match parseEvents lines with
  | .error e => .error e
  | .ok (evs, _) => eventsToTimelineWith rate (firstSeenKeys evs) evs

/-! ## The line scanner

`Decoder.parseEvents` reads lines through `bufio.Scanner` with the default
`ScanLines` split function: tokens are separated by `'\n'`, a final
newline does not produce an empty final token, and one trailing `'\r'` is
stripped from each token. -/

/-- `dropCR` of `bufio.ScanLines`. -/
def dropCR (s : Str) : Str :=
  match s.getLast? with
  | some c => if c = '\r' then s.dropLast else s
  | none => s

def splitNLGo : Str → Str → List Str
  | [], acc => [acc.reverse]
  | c :: rest, acc =>
    if c = '\n' then
      if rest = [] then [acc.reverse] else acc.reverse :: splitNLGo rest []
    else splitNLGo rest (c :: acc)

/-- Split a text at `'\n'`; a trailing newline yields no final empty
token, and an empty text yields no tokens. -/
def splitNL (s : Str) : List Str :=
  match s with
  | [] => []
  | _ => splitNLGo s []

/-- `bufio.Scanner` with `ScanLines`. -/
def scanLines (text : Str) : List Str := (splitNL text).map dropCR

/-- `Decoder.Decode` on raw text (the decoder's configured rate is its
only consulted configuration; `ignoreTimecodeMismatch` is accepted but
never read). -/
def decodeText (rate : ℚ) (text : Str) : Except DecodeErr Timeline :=
  decodeLines rate (scanLines text)

/-! ## Encoder (`encoder.go`)

The `io.Writer` is modelled by accumulating the emitted text.  Alongside the
text the emitted event records are collected: the text is exactly the header
followed by the concatenation of `writeEventText` over those records, which
mirrors the source's incremental `writeEvent` calls.  The configured output
style is accepted but never consulted by the source, so it does not appear
here. -/

/-- `isDropFrameRate` (encoder.go lines 289-292); the `float64` literals
29.96 etc. are exact decimals. -/
def isDropFrameRate (rate : ℚ) : Bool :=
  (mkRat 2996 100 < rate ∧ rate < mkRat 2998 100) ∨
  (mkRat 5993 100 < rate ∧ rate < mkRat 5995 100)

def fallbackTC : Str := "00:00:00:00".data

/-- `Encoder.formatTimecode` (lines 267-286): rescale to the encoder rate,
render, fall back to `00:00:00:00` on error, and force `':'` separators at
non-drop-frame rates. -/
def formatTimecode (rate : ℚ) (t : RationalTime) : Str :=
  match toTimecode (t.rescaledTo rate) rate with
  | .error _ => fallbackTC
  | .ok tc =>
    if ¬ isDropFrameRate rate then tc.map fun c => if c = ';' then ':' else c
    else tc

/-- Go `int(x)` on a `float64`: truncation toward zero. -/
def ratTruncInt (q : ℚ) : Int := q.num.tdiv (q.den : Int)

/-- `Encoder.writeEvent` (lines 222-265) as the text it appends. -/
def writeEventText (e : EDLEvent) : Str :=
  (fmtInt0 3 e.eventNumber ++ "  ".data ++ padRight 8 e.reelName ++ " ".data ++
   e.trackType ++ "    ".data ++ padRight 2 e.editType ++
   (if e.editType = editTypeDissolve ∧ 0 < e.transitionDuration then
      "   ".data ++ fmtInt0 3 e.transitionDuration
    else [])) ++
  '\n' ::
  ("     ".data ++ e.sourceIn ++ " ".data ++ e.sourceOut ++ " ".data ++
   e.recordIn ++ " ".data ++ e.recordOut) ++
  '\n' ::
  (if e.clipName ≠ [] then "* FROM CLIP NAME: ".data ++ e.clipName ++ ['\n'] else []) ++
  ['\n']

/-- The event record derived for one clip (encoder.go lines 147-212). -/
def encClipEvent (rate : ℚ) (reelLen : Int) (trackType : Str) (c : Clip)
    (num : Int) (rec : RationalTime) (editType : Str) (transDur : Int) :
    Except Str (EDLEvent × RationalTime) :=
  match c.duration with
  | .error err => .error err
  | .ok dur =>
    match c.rangeForEncode with
    | .error err => .error err
    | .ok sr =>
      let sourceIn := sr.startTime
      let recordOut := rec.add dur
      let reelName0 :=
        match c.mediaRef with
        | none => "AX".data
        | some m =>
          if m.name = [] then
            match m with
            | .external _ turl _ => turl
            | _ => m.name
          else m.name
      .ok ({ eventNumber := num
             reelName := SanitizeReelName reelName0 reelLen
             trackType := trackType
             editType := editType
             sourceIn := formatTimecode rate sourceIn
             sourceOut := formatTimecode rate (sourceIn.add dur)
             recordIn := formatTimecode rate rec
             recordOut := formatTimecode rate recordOut
             clipName := c.name
             transitionDuration := transDur }, recordOut)

/-- `Encoder.writeTrackEvents` (lines 122-219) as the list of event records
it writes: gaps advance the record cursor, bare transitions are skipped, and
a transition directly after a clip is consumed by it (becoming a dissolve
with its out-offset as duration only when its kind is `SMPTE_Dissolve`).
On an error the events written so far are kept, as their text has already
been emitted. -/
def encChildren (rate : ℚ) (reelLen : Int) (trackType : Str) :
    List TrackItem → Int → RationalTime → List EDLEvent × Option Str
  | [], _, _ => ([], none)
  | .gapItem d :: rest, num, rec =>
    encChildren rate reelLen trackType rest num (rec.add d)
  | .transitionItem _ _ _ _ :: rest, num, rec =>
    encChildren rate reelLen trackType rest num rec
  | .clipItem c :: .transitionItem _tn ttype _tin outOff :: r2, num, rec =>
    match encClipEvent rate reelLen trackType c num rec
        (if ttype = transitionTypeSMPTEDissolve then editTypeDissolve else editTypeCut)
        (if ttype = transitionTypeSMPTEDissolve then ratTruncInt outOff.value else 0) with
    | .error err => ([], some err)
    | .ok (ev, recordOut) =>
      let (tail, err) := encChildren rate reelLen trackType r2 (num + 1) recordOut
      (ev :: tail, err)
  | .clipItem c :: rest, num, rec =>
    match encClipEvent rate reelLen trackType c num rec editTypeCut 0 with
    | .error err => ([], some err)
    | .ok (ev, recordOut) =>
      let (tail, err) := encChildren rate reelLen trackType rest (num + 1) recordOut
      (ev :: tail, err)

/-- The audio track identifiers `A1`..`A4` then generic `A` (encoder.go
lines 82-92). -/
def audioTrackType (i : Nat) : Str :=
  if i = 0 then trackTypeAudio1
  else if i = 1 then trackTypeAudio2
  else if i = 2 then trackTypeAudio3
  else if i = 3 then trackTypeAudio4
  else trackTypeAudio

/-- The track serialisation loop: each track starts a fresh record cursor at
zero but the event counter continues across tracks. -/
def encTracks (rate : ℚ) (reelLen : Int) :
    List (Track × Str) → Int → List EDLEvent × Option Str
  | [], _ => ([], none)
  | (tr, tt) :: rest, num =>
    match encChildren rate reelLen tt tr.children num (rtNew 0 rate) with
    | (evs, some e) => (evs, some e)
    | (evs, none) =>
      let (evs2, err2) := encTracks rate reelLen rest (num + evs.length)
      (evs ++ evs2, err2)

def strJoin (l : List Str) : Str := l.foldr (· ++ ·) []

/-- `Encoder.writeHeader` (lines 105-119). -/
def headerText (tl : Timeline) : Str :=
  "TITLE: ".data ++ (if tl.name = [] then "Timeline".data else tl.name) ++
  '\n' :: "FCM: NON-DROP FRAME\n\n".data

/-- The result of `Encoder.Encode`: the text written to the stream, the
event records it contains, and the returned error if any. -/
structure EncodeOut where
  text : Str
  events : List EDLEvent
  err : Option Str
deriving DecidableEq, Repr

/-- `Encoder.Encode` (encoder.go lines 50-102): a nil timeline fails before
any write; the header is written, then the single-video-track invariant is
checked, then the video track and the audio tracks are serialised with one
shared counter starting at 1. -/
def encodeTimeline (rate : ℚ) (reelLen : Int) (t : Option Timeline) : EncodeOut :=
  match t with
  | none => ⟨[], [], some "timeline is nil".data⟩
  | some tl =>
    let hdr := headerText tl
    let vts := tl.videoTracks
    if 1 < vts.length then
      ⟨hdr, [], some "EDL format supports only one video track".data⟩
    else
      let pairs :=
        (match vts with | [] => [] | tr :: _ => [(tr, trackTypeVideo)]) ++
        tl.audioTracks.enum.map fun p => (p.2, audioTrackType p.1)
      let (evs, err) := encTracks rate reelLen pairs 1
      ⟨hdr ++ strJoin (evs.map writeEventText), evs, err⟩

/-- `NewEncoder` defaults: rate 24, reel-name limit 8. -/
def encodeDefault (t : Option Timeline) : EncodeOut :=
  encodeTimeline 24 defaultReelNameLength t

/-- `NewDecoder` default rate 24. -/
def decodeText24 (text : Str) : Except DecodeErr Timeline := decodeText 24 text

def parseEventsText (text : Str) : Except DecodeErr (List EDLEvent × Str) :=
  parseEvents (scanLines text)

/-! ## Supporting lemmas -/

theorem takeWhile_ne_nil_head {p : Char → Bool} {s : Str}
    (h : s.takeWhile p ≠ []) : ∃ c r, s = c :: r ∧ p c = true := by
  cases s with
  | nil => simp [List.takeWhile] at h
  | cons c r =>
    refine ⟨c, r, rfl, ?_⟩
    by_contra hc
    simp [List.takeWhile, Bool.not_eq_true] at h
    rw [Bool.not_eq_true] at hc
    rw [hc] at h
    simp at h

theorem isDigit_not_sp {c : Char} (h : isDigitCh c = true) : isSp c = false := by
  by_contra hs
  rw [Bool.not_eq_false] at hs
  simp only [isSp, Bool.or_eq_true, decide_eq_true_eq] at hs
  simp only [isDigitCh, Bool.and_eq_true, decide_eq_true_eq] at h
  rcases hs with rfl | rfl | rfl | rfl | rfl | rfl <;> revert h <;> decide

theorem trimRightSp_cons {c : Char} (s : Str) (hc : isSp c = false) :
    trimRightSp (c :: s) = c :: trimRightSp s := by
  unfold trimRightSp
  rw [List.reverse_cons, List.dropWhile_append]
  by_cases h : (s.reverse.dropWhile isSp).isEmpty
  · rw [if_pos h]
    rw [List.isEmpty_iff] at h
    rw [h]
    simp [List.dropWhile, hc]
  · rw [if_neg h]
    rw [List.isEmpty_iff] at h
    rw [List.reverse_append]
    simp

theorem matchEventLine_head {l : Str} {h : EventHeader}
    (hm : matchEventLine l = some h) :
    ∃ c r, l.dropWhile isSp = c :: r ∧ isDigitCh c = true := by
  unfold matchEventLine at hm
  by_cases h1 : (l.dropWhile isSp).takeWhile isDigitCh = []
  · rw [if_pos h1] at hm
    exact absurd hm (by simp)
  · exact takeWhile_ne_nil_head h1

theorem isDigit_ne_T {c : Char} (h : isDigitCh c = true) : c ≠ 'T' := by
  rintro rfl
  revert h
  decide

theorem isDigit_ne_F {c : Char} (h : isDigitCh c = true) : c ≠ 'F' := by
  rintro rfl
  revert h
  decide

/-- A line matched by the event-header pattern is not blank and has neither
the `TITLE:` nor the `FCM:` prefix after trimming (its first non-blank
character is a digit), so the earlier branches of the scanning loop do not
preempt it. -/
theorem matchEventLine_not_special {l : Str} {h : EventHeader}
    (hm : matchEventLine l = some h) :
    trimSp l ≠ [] ∧ hasPfx (trimSp l) pfxTitle = false ∧
      hasPfx (trimSp l) pfxFCM = false := by
  obtain ⟨c, r, hdrop, hdig⟩ := matchEventLine_head hm
  have hcsp := isDigit_not_sp hdig
  have htrim : trimSp l = c :: trimRightSp r := by
    rw [trimSp, trimLeftSp, hdrop, trimRightSp_cons _ hcsp]
  refine ⟨by simp [htrim], ?_, ?_⟩
  · rw [htrim]
    simp [pfxTitle, hasPfx]
    intro hT
    exact absurd hT.symm (isDigit_ne_T hdig)
  · rw [htrim]
    simp [pfxFCM, hasPfx]
    intro hF
    exact absurd hF.symm (isDigit_ne_F hdig)

theorem matchEventLine_not_skip {l : Str} {h : EventHeader}
    (hm : matchEventLine l = some h) : isSkipLine (trimSp l) = false := by
  obtain ⟨hne, hT, hF⟩ := matchEventLine_not_special hm
  simp [isSkipLine, hne, hT, hF]

/-! ## Claim C5 -/

/-- The sanitiser restated from the claim's words: map every character that
is not an ASCII letter, digit, or underscore to `'_'`; truncate to
`maxLength` characters when `maxLength` is positive and the mapped string is
longer; no truncation when `maxLength` is zero or negative; `"AX"` when the
input is the empty string. -/
def c5SanitizeSpec (name : Str) (maxLength : Int) : Str :=
  if name = [] then "AX".data
  else
    let mapped := name.map fun c => if isReelCh c then c else '_'
    if maxLength > 0 ∧ (mapped.length : Int) > maxLength then
      mapped.take maxLength.toNat
    else mapped

/-- C5: `SanitizeReelName` maps every character that is not an ASCII letter,
digit, or underscore to `'_'`; truncates the mapped string to `maxLength`
characters when `maxLength` is positive and the mapped string is longer;
applies no truncation when `maxLength` is zero or negative; and returns
`"AX"` exactly for the empty input (a nonempty input always leaves a
nonempty result, so the source's after-the-fact emptiness check coincides
with the claim's empty-input condition). -/
theorem c5_sanitize_reel_name (name : Str) (maxLength : Int) :
    SanitizeReelName name maxLength = c5SanitizeSpec name maxLength := by
  rcases name with _ | ⟨c, cs⟩
  · simp only [SanitizeReelName, c5SanitizeSpec, List.map_nil, List.length_nil]
    rw [if_neg (by omega : ¬(maxLength > 0 ∧ ((0 : Nat) : Int) > maxLength))]
    simp
  · simp only [SanitizeReelName, c5SanitizeSpec]
    rw [if_neg (List.cons_ne_nil c cs)]
    set L := (c :: cs).map (fun r => if isReelCh r then r else '_') with hL
    have hLne : L ≠ [] := by simp [hL]
    by_cases hc : maxLength > 0 ∧ (L.length : Int) > maxLength
    · rw [if_pos hc]
      have htk : L.take maxLength.toNat ≠ [] := by
        rw [Ne, List.take_eq_nil_iff]
        push_neg
        constructor
        · omega
        · exact hLne
      rw [if_neg htk]
    · rw [if_neg hc, if_neg hLne]

/-! ## Claim C2 -/

/-- A timeline with two video-bearing tracks. -/
def twoVideoTimeline : Timeline :=
  ⟨"Multi".data,
   [⟨"V1".data, trackKindVideo, []⟩, ⟨"V2".data, trackKindVideo, []⟩]⟩

def msgMultiVideo : Str := "EDL format supports only one video track".data

/-- C2 (counterexample): encoding a timeline with two video-bearing tracks
does return an encode failure, but the header has already been written to
the output stream, so partial text (the `TITLE:`/`FCM:` header) *is*
emitted, contrary to the claim's "before any output is written". -/
theorem c2_counterexample :
    (encodeTimeline 24 8 (some twoVideoTimeline)).err = some msgMultiVideo ∧
    (encodeTimeline 24 8 (some twoVideoTimeline)).text =
      "TITLE: Multi\nFCM: NON-DROP FRAME\n\n".data ∧
    (encodeTimeline 24 8 (some twoVideoTimeline)).text ≠ [] := by
  refine ⟨rfl, rfl, ?_⟩
  decide

/-- C2 (amended): for every timeline with more than one video-bearing
track, at any rate and reel-name limit, `Encode` returns the encode failure
after writing exactly the header (`TITLE:` and `FCM:` lines) and nothing
else — in particular no event text is emitted. -/
theorem c2_multi_video_fails_after_header (rate : ℚ) (reelLen : Int)
    (tl : Timeline) (h : 1 < tl.videoTracks.length) :
    encodeTimeline rate reelLen (some tl) =
      ⟨headerText tl, [], some msgMultiVideo⟩ := by
  simp only [encodeTimeline]
  rw [if_pos h]
  rfl

theorem c2_witness :
    encodeTimeline 24 8 (some twoVideoTimeline) =
      ⟨headerText twoVideoTimeline, [], some msgMultiVideo⟩ :=
  c2_multi_video_fails_after_header 24 8 twoVideoTimeline (by decide)

/-! ## Claim C3 -/

def resultIsError (r : Except DecodeErr Timeline) : Bool :=
  match r with
  | .error _ => true
  | .ok _ => false

def resultIsParseFailure (r : Except DecodeErr Timeline) : Bool :=
  match r with
  | .error (.parse _ _) => true
  | _ => false

def c3LastLineText : Str := "001 AX V C".data

/-- C3 (counterexample): when the event header is the last line of input,
`Decode` does fail, but with a plain (wrapped timecode-conversion) error
carrying no line number — not with the parse failure the claim requires:
`parseEvents` only raises the parse failure when a next line exists, and
otherwise flushes the event with empty timecode fields. -/
theorem c3_counterexample :
    resultIsError (decodeText24 c3LastLineText) = true ∧
    resultIsParseFailure (decodeText24 c3LastLineText) = false := by
  constructor
  · rfl
  · rfl

/-- C3 (amended): whenever a line matches the event-header grammar and a
next physical line exists, the decoder requires that next line to match the
four-timecode grammar and otherwise fails with a parse error carrying that
line's 1-based physical number; when the event header is the last line of
input, no parse failure is raised — the fresh event (with empty timecode
fields) is flushed into the event list and any failure surfaces later,
without a line number, from timecode conversion. -/
theorem c3_missing_timecode_line :
    (∀ (l tcl : Str) (rest : List Str) (n : Nat) (cur : Option EDLEvent)
        (acc : List EDLEvent) (fcm : Str) (h : EventHeader),
        matchEventLine l = some h → matchTimecodeLine tcl = none →
        parseLoop (l :: tcl :: rest) n cur acc fcm =
          .error (.parse (n + 2) msgExpectedTC)) ∧
    (∀ (l : Str) (n : Nat) (cur : Option EDLEvent) (acc : List EDLEvent)
        (fcm : Str) (h : EventHeader),
        matchEventLine l = some h →
        parseLoop [l] n cur acc fcm = .ok (acc ++ cur.toList ++ [mkEvent h], fcm)) := by
  constructor
  · intro l tcl rest n cur acc fcm h hm htc
    have hskip := matchEventLine_not_skip hm
    rw [parseLoop]
    simp only [hskip, Bool.false_eq_true, if_false, hm, htc]
  · intro l n cur acc fcm h hm
    have hskip := matchEventLine_not_skip hm
    rw [parseLoop]
    simp only [hskip, Bool.false_eq_true, if_false, hm]

def c3Header : EventHeader :=
  ⟨"001".data, "AX".data, "V".data, "C".data, []⟩

theorem c3_witness :
    parseLoop [c3LastLineText, "garbage".data] 0 none [] [] =
      .error (.parse 2 msgExpectedTC) ∧
    parseLoop [c3LastLineText] 0 none [] [] = .ok ([mkEvent c3Header], []) := by
  constructor
  · exact c3_missing_timecode_line.1 c3LastLineText "garbage".data [] 0 none [] []
      c3Header (by rfl) (by rfl)
  · exact c3_missing_timecode_line.2 c3LastLineText 0 none [] [] c3Header (by rfl)

/-! ## Claim C4 -/

/-- C4: for two consecutive events of one track group, when the previous
event's record-out is a valid rational time and the current record-in
exceeds it by more than half a frame's value, exactly one gap of exactly
`recordIn - lastRecordOut` is inserted immediately before the new clip and
any transition node of the new clip; when the excess is half a frame or
less, no gap is inserted. -/
theorem c4_gap_synthesis (rate : ℚ) (trackType : Str) (e1 e2 : EDLEvent)
    (track : Track)
    (si1 so1 ri1 ro1 si2 so2 ri2 ro2 : RationalTime)
    (hok : createTrack rate trackType [e1, e2] = .ok track)
    (h1 : fromTimecode e1.sourceIn rate = .ok si1)
    (h2 : fromTimecode e1.sourceOut rate = .ok so1)
    (h3 : fromTimecode e1.recordIn rate = .ok ri1)
    (h4 : fromTimecode e1.recordOut rate = .ok ro1)
    (h5 : fromTimecode e2.sourceIn rate = .ok si2)
    (h6 : fromTimecode e2.sourceOut rate = .ok so2)
    (h7 : fromTimecode e2.recordIn rate = .ok ri2)
    (h8 : fromTimecode e2.recordOut rate = .ok ro2)
    (hv : ro1.isValid = true) :
    (mkRat 1 2 < (ri2.sub ro1).value →
      track.children =
        transPart rate e1 ++ [.clipItem (buildClip rate e1 si1 so1)] ++
        ([.gapItem (ri2.sub ro1)] ++ transPart rate e2 ++
         [.clipItem (buildClip rate e2 si2 so2)])) ∧
    (¬ (mkRat 1 2 < (ri2.sub ro1).value) →
      track.children =
        transPart rate e1 ++ [.clipItem (buildClip rate e1 si1 so1)] ++
        (transPart rate e2 ++ [.clipItem (buildClip rate e2 si2 so2)])) := by
  have hgo : createTrackGo rate rtZeroValue [e1, e2] =
      .ok (eventSeg rate rtZeroValue e1 si1 so1 ri1 ++
           (eventSeg rate ro1 e2 si2 so2 ri2 ++ [])) := by
    rw [createTrackGo.eq_def]
    simp only [h1, h2, h3, h4]
    rw [createTrackGo.eq_def]
    simp only [h5, h6, h7, h8]
    rw [createTrackGo.eq_def]
  unfold createTrack at hok
  rw [hgo] at hok
  have htrack : track.children =
      eventSeg rate rtZeroValue e1 si1 so1 ri1 ++
      (eventSeg rate ro1 e2 si2 so2 ri2 ++ []) := by
    cases hok
    rfl
  have hseg1 : eventSeg rate rtZeroValue e1 si1 so1 ri1 =
      transPart rate e1 ++ [.clipItem (buildClip rate e1 si1 so1)] := by
    unfold eventSeg gapPart rtZeroValue RationalTime.isValid
    norm_num
  constructor
  · intro hgt
    rw [htrack, hseg1]
    unfold eventSeg gapPart
    rw [if_pos hv, if_pos hgt]
    simp
  · intro hle
    rw [htrack, hseg1]
    unfold eventSeg gapPart
    rw [if_pos hv, if_neg hle]
    simp

def c4e1 : EDLEvent :=
  { eventNumber := 1, reelName := "AX".data, trackType := "V".data
    editType := "C".data
    sourceIn := "00:00:00:00".data, sourceOut := "00:00:01:00".data
    recordIn := "00:00:00:00".data, recordOut := "00:00:01:00".data }

def c4e2 : EDLEvent :=
  { eventNumber := 2, reelName := "AX".data, trackType := "V".data
    editType := "C".data
    sourceIn := "00:00:00:00".data, sourceOut := "00:00:01:00".data
    recordIn := "00:00:02:00".data, recordOut := "00:00:03:00".data }

def c4track : Track :=
  match createTrack 24 "V".data [c4e1, c4e2] with
  | .ok t => t
  | .error _ => ⟨[], [], []⟩

theorem c4_witness :
    mkRat 1 2 < ((rtNew 48 24).sub (rtNew 24 24)).value ∧
    c4track.children =
      transPart 24 c4e1 ++ [.clipItem (buildClip 24 c4e1 (rtNew 0 24) (rtNew 24 24))] ++
      ([.gapItem ((rtNew 48 24).sub (rtNew 24 24))] ++ transPart 24 c4e2 ++
       [.clipItem (buildClip 24 c4e2 (rtNew 0 24) (rtNew 24 24))]) :=
  ⟨by decide,
   (c4_gap_synthesis 24 "V".data c4e1 c4e2 c4track
      (rtNew 0 24) (rtNew 24 24) (rtNew 0 24) (rtNew 24 24)
      (rtNew 0 24) (rtNew 24 24) (rtNew 48 24) (rtNew 72 24)
      rfl rfl rfl rfl rfl rfl rfl rfl rfl (by decide)).1 (by decide)⟩

/-! ## Claim C6 -/

def MediaReference.generatorKindOf : MediaReference → Option Str
  | .generator _ k _ => some k
  | .external _ _ _ => none

/-- C6: the media reference of a decoded event's clip: reel names `BLACK`
and `BL` (case-insensitively) yield a generator reference of kind `black`,
`BARS` yields a generator reference of kind `SMPTEBars` (so never an
external reference), and every other reel name yields an external reference
whose target identifier is the comment-derived file path when nonempty,
else the raw reel name. -/
theorem c6_media_reference (rate : ℚ) (e : EDLEvent) (si so : RationalTime) :
    (toUpperStr e.reelName = "BLACK".data ∨ toUpperStr e.reelName = "BL".data →
      (buildClip rate e si so).mediaRef =
        some (.generator "black".data "black".data
          (some ⟨si, durationFromStartEnd si so⟩))) ∧
    (toUpperStr e.reelName = "BARS".data →
      (buildClip rate e si so).mediaRef =
        some (.generator "SMPTEBars".data "SMPTEBars".data
          (some ⟨si, durationFromStartEnd si so⟩))) ∧
    (¬ (toUpperStr e.reelName = "BLACK".data ∨ toUpperStr e.reelName = "BL".data ∨
        toUpperStr e.reelName = "BARS".data) →
      (buildClip rate e si so).mediaRef =
        some (.external (if e.filePath ≠ [] then e.filePath else e.reelName)
          (if e.filePath ≠ [] then e.filePath else e.reelName)
          (some ⟨si, durationFromStartEnd si so⟩))) := by
  refine ⟨fun h => ?_, fun h => ?_, fun h => ?_⟩
  · simp only [buildClip]
    rw [if_pos h]
  · have hbb : ¬ (toUpperStr e.reelName = "BLACK".data ∨
        toUpperStr e.reelName = "BL".data) := by
      rintro (hx | hx) <;> rw [hx] at h <;> exact absurd h (by decide)
    simp only [buildClip]
    rw [if_neg hbb, if_pos h]
  · push_neg at h
    simp only [buildClip]
    rw [if_neg (by rintro (hx | hx); exacts [h.1 hx, h.2.1 hx]), if_neg h.2.2]

def c6BlackEvent : EDLEvent := { reelName := "black".data }
def c6AxEvent : EDLEvent := { reelName := "AX".data }

theorem c6_witness :
    (buildClip 24 c6BlackEvent (rtNew 0 24) (rtNew 24 24)).mediaRef =
      some (.generator "black".data "black".data
        (some ⟨rtNew 0 24, durationFromStartEnd (rtNew 0 24) (rtNew 24 24)⟩)) ∧
    (buildClip 24 c6AxEvent (rtNew 0 24) (rtNew 24 24)).mediaRef =
      some (.external "AX".data "AX".data
        (some ⟨rtNew 0 24, durationFromStartEnd (rtNew 0 24) (rtNew 24 24)⟩)) :=
  ⟨(c6_media_reference 24 c6BlackEvent (rtNew 0 24) (rtNew 24 24)).1
      (Or.inl (by decide)),
   (c6_media_reference 24 c6AxEvent (rtNew 0 24) (rtNew 24 24)).2.2 (by decide)⟩

/-! ## Claim C7 -/

/-- C7: for a decoded event whose edit-type token was `W001` (edit type
wipe, wipe code `W001`) with transition duration 30, the Timeline Builder
emits, immediately before the event's clip, exactly one transition whose
name is `W001`, whose kind is the custom (wipe) kind, whose in-offset is
zero and whose out-offset is 30 frames at the decode rate; at most a gap
(from the gap-synthesis rule) can precede the transition. -/
theorem c7_wipe_transition (rate : ℚ) (last : RationalTime) (e : EDLEvent)
    (rest : List EDLEvent) (out : List TrackItem)
    (hok : createTrackGo rate last (e :: rest) = .ok out)
    (hw : e.editType = editTypeWipe) (hc : e.wipeCode = "W001".data)
    (hd : e.transitionDuration = 30) :
    ∃ si so ri rest',
      out = gapPart last ri ++
        ([.transitionItem "W001".data transitionTypeCustom (rtNew 0 rate)
            (rtNew (mkRat 30 1) rate),
          .clipItem (buildClip rate e si so)] ++ rest') ∧
      (gapPart last ri = [] ∨ ∃ d, gapPart last ri = [.gapItem d]) := by
  rw [createTrackGo.eq_def] at hok
  rcases hsi : fromTimecode e.sourceIn rate with msi | si <;> simp only [hsi] at hok
  · exact absurd hok (by simp)
  rcases hso : fromTimecode e.sourceOut rate with mso | so <;> simp only [hso] at hok
  · exact absurd hok (by simp)
  rcases hri : fromTimecode e.recordIn rate with mri | ri <;> simp only [hri] at hok
  · exact absurd hok (by simp)
  rcases hro : fromTimecode e.recordOut rate with mro | ro <;> simp only [hro] at hok
  · exact absurd hok (by simp)
  rcases htail : createTrackGo rate ro rest with mtl | tail <;> simp only [htail] at hok
  · exact absurd hok (by simp)
  have hout : out = eventSeg rate last e si so ri ++ tail := by
    cases hok
    rfl
  have htp : transPart rate e =
      [.transitionItem "W001".data transitionTypeCustom (rtNew 0 rate)
        (rtNew (mkRat 30 1) rate)] := by
    unfold transPart
    rw [if_pos (by rw [hw, hd]; exact ⟨Or.inr rfl, by decide⟩), if_pos hw,
      if_pos (by rw [hc]; decide), hc, hd]
  refine ⟨si, so, ri, tail, ?_, ?_⟩
  · rw [hout]
    unfold eventSeg
    rw [htp]
    simp
  · unfold gapPart
    by_cases h1 : last.isValid
    · rw [if_pos h1]
      by_cases h2 : mkRat 1 2 < (ri.sub last).value
      · rw [if_pos h2]
        exact Or.inr ⟨_, rfl⟩
      · rw [if_neg h2]
        exact Or.inl rfl
    · rw [if_neg h1]
      exact Or.inl rfl

def c7Event : EDLEvent :=
  { eventNumber := 3, reelName := "AX".data, trackType := "V".data
    editType := "W".data, wipeCode := "W001".data, transitionDuration := 30
    sourceIn := "00:00:00:00".data, sourceOut := "00:00:01:00".data
    recordIn := "00:00:00:00".data, recordOut := "00:00:01:00".data }

def c7Out : List TrackItem :=
  match createTrackGo 24 rtZeroValue [c7Event] with
  | .ok o => o
  | .error _ => []

theorem c7_witness :
    ∃ si so ri rest',
      c7Out = gapPart rtZeroValue ri ++
        ([.transitionItem "W001".data transitionTypeCustom (rtNew 0 24)
            (rtNew (mkRat 30 1) 24),
          .clipItem (buildClip 24 c7Event si so)] ++ rest') ∧
      (gapPart rtZeroValue ri = [] ∨ ∃ d, gapPart rtZeroValue ri = [.gapItem d]) :=
  c7_wipe_transition 24 rtZeroValue c7Event [] c7Out rfl rfl rfl rfl

/-! ## Claim C8 -/

def c8Text : Str :=
  ("001 AX V C\n     00:00:00:00 00:00:01:00 00:00:00:00 00:00:01:00\n" ++
   "002 AX A1 C\n     00:00:00:00 00:00:01:00 00:00:00:00 00:00:01:00\n").data

def c8Events : List EDLEvent :=
  match parseEventsText c8Text with
  | .ok (evs, _) => evs
  | .error _ => []

def tracksKindsOf (r : Except DecodeErr Timeline) : Except DecodeErr (List Str) :=
  r.map fun tl => tl.tracks.map Track.kind

/-- C8: decoding is *not* deterministic.  `eventsToTimeline` iterates a Go
map with `range`, whose order is unspecified; for an input with a `V` event
and an `A1` event, both orders of the two distinct track keys are
admissible iterations of that map (they are permutations of the key set),
and they produce timelines whose tracks appear in different orders — so two
runs of `Decode` may disagree on track order, contradicting the claim. -/
theorem c8_track_order_nondeterministic :
    firstSeenKeys c8Events = ["V".data, "A1".data] ∧
    List.Perm ["V".data, "A1".data] ["A1".data, "V".data] ∧
    tracksKindsOf (decodeLinesWith 24 ["V".data, "A1".data] (scanLines c8Text)) =
      .ok [trackKindVideo, trackKindAudio] ∧
    tracksKindsOf (decodeLinesWith 24 ["A1".data, "V".data] (scanLines c8Text)) =
      .ok [trackKindAudio, trackKindVideo] := by
  refine ⟨rfl, ?_, rfl, rfl⟩
  decide

/-! ## Claim C10 -/

def c10Text : Str :=
  ("001 AX V C\n     00:00:00:00 00:00:05:00 00:00:00:00 00:00:05:00\n" ++
   "* FROM CLIP NAME: A FF\n").data

def c10Events : List EDLEvent :=
  match parseEventsText c10Text with
  | .ok (evs, _) => evs
  | .error _ => []

/-- C10 (counterexample): the physical line `* FROM CLIP NAME: A FF` ends
(trimmed) with `" FF"` while an event is open, yet the freeze-frame flag is
*not* set — the clip-name prefix test precedes the freeze-frame suffix
test, and the line is recorded as the clip name `A FF` instead. -/
theorem c10_counterexample :
    hasSfx (trimSp "* FROM CLIP NAME: A FF".data) sfxFF = true ∧
    c10Events.map EDLEvent.freezeFrame = [false] ∧
    c10Events.map EDLEvent.clipName = ["A FF".data] := by
  refine ⟨?_, rfl, rfl⟩
  decide

/-- C10 (amended): while an event is open, a line reaching the comment
dispatch whose trimmed text ends with `" FF"` and which matches none of the
six clip-name/file-path prefixes sets the freeze-frame flag — even when the
line does not begin with `'*'` — because the freeze-frame suffix test
precedes the locator, `ASC_SOP`, `ASC_SAT` and generic-comment tests; such
a line changes nothing else on the event: it is not recorded as a locator,
color decision, or comment. -/
theorem c10_ff_suffix_sets_freeze (ev : EDLEvent) (t : Str)
    (h1 : hasPfx t pfxFromClipNameA = false)
    (h2 : hasPfx t pfxFromClipNameB = false)
    (h3 : hasPfx t pfxFromClipA = false)
    (h4 : hasPfx t pfxFromClipB = false)
    (h5 : hasPfx t pfxFromFileA = false)
    (h6 : hasPfx t pfxFromFileB = false)
    (hff : hasSfx t sfxFF = true) :
    applyCommentLine ev t = { ev with freezeFrame := true } := by
  unfold applyCommentLine
  rw [if_neg (by rw [h1]; exact Bool.false_ne_true),
    if_neg (by rw [h2]; exact Bool.false_ne_true),
    if_neg (by rw [h3]; exact Bool.false_ne_true),
    if_neg (by rw [h4]; exact Bool.false_ne_true),
    if_neg (by rw [h5]; exact Bool.false_ne_true),
    if_neg (by rw [h6]; exact Bool.false_ne_true),
    if_pos (Or.inr hff)]

def c10Event : EDLEvent := { eventNumber := 1, reelName := "AX".data }

theorem c10_witness :
    applyCommentLine c10Event "LOC: freeze here FF".data =
      { c10Event with freezeFrame := true } :=
  c10_ff_suffix_sets_freeze c10Event "LOC: freeze here FF".data
    rfl rfl rfl rfl rfl rfl (by decide)

/-! ## Claim C9 -/

/-- `[start, start+1, ..., start+n-1]`. -/
def intRange (start : Int) : Nat → List Int
  | 0 => []
  | n + 1 => start :: intRange (start + 1) n

theorem intRange_append (m : Nat) :
    ∀ (a : Int) (n : Nat), intRange a m ++ intRange (a + m) n = intRange a (m + n) := by
  induction m with
  | zero => intro a n; simp [intRange]
  | succ m ih =>
    intro a n
    show a :: (intRange (a + 1) m ++ intRange (a + (m + 1)) n) = _
    rw [show a + ((m : Int) + 1) = (a + 1) + m by ring, ih]
    rw [show m + 1 + n = (m + n) + 1 by omega]
    rfl

theorem digitChar_toNat {k : Nat} (hk : k < 10) :
    (Char.ofNat (48 + k)).toNat = 48 + k := by
  interval_cases k <;> decide

theorem natOfDigits_natDigitsAux :
    ∀ (fuel n : Nat) (acc : Str), n ≤ fuel →
      natOfDigits (natDigitsAux fuel n acc) =
        acc.foldl (fun a c => 10 * a + (c.toNat - 48)) n := by
  intro fuel
  induction fuel with
  | zero =>
    intro n acc hn
    interval_cases n
    simp [natDigitsAux, natOfDigits]
  | succ fuel ih =>
    intro n acc hn
    rw [natDigitsAux]
    by_cases h10 : n < 10
    · rw [if_pos h10]
      show natOfDigits _ = _
      unfold natOfDigits
      simp only [List.foldl_cons]
      rw [digitChar_toNat (by omega)]
      congr 1
      omega
    · rw [if_neg h10]
      rw [ih (n / 10) _ (by omega)]
      simp only [List.foldl_cons]
      rw [digitChar_toNat (by omega)]
      congr 1
      omega

/-- Decimal digits round-trip through their numeric value. -/
theorem natOfDigits_natDigits (n : Nat) : natOfDigits (natDigits n) = n := by
  rw [natDigits, natOfDigits_natDigitsAux (n + 1) n [] (by omega)]
  rfl

theorem natDigitsAux_length_ge :
    ∀ (k fuel n : Nat) (acc : Str), n ≤ fuel → 10 ^ k ≤ n →
      k + 1 + acc.length ≤ (natDigitsAux fuel n acc).length := by
  intro k
  induction k with
  | zero =>
    intro fuel n acc hn h1
    induction fuel generalizing n acc with
    | zero => omega
    | succ fuel ih =>
      rw [natDigitsAux]
      by_cases h10 : n < 10
      · rw [if_pos h10]
        simp only [List.length_cons]
        omega
      · rw [if_neg h10]
        have := ih (n / 10) (Char.ofNat (48 + n % 10) :: acc) (by omega) (by
          simpa using Nat.one_le_div_iff (by omega : (0:Nat) < 10) |>.mpr (by omega))
        simp only [List.length_cons] at this
        omega
  | succ k ihk =>
    intro fuel n acc hn hpow
    cases fuel with
    | zero =>
      exfalso
      have : 1 ≤ 10 ^ (k + 1) := Nat.one_le_pow _ _ (by omega)
      omega
    | succ fuel =>
      rw [natDigitsAux]
      have h10 : ¬ n < 10 := by
        have h1 : 10 ≤ 10 ^ (k + 1) := by
          calc 10 = 10 ^ 1 := by norm_num
          _ ≤ 10 ^ (k + 1) := Nat.pow_le_pow_right (by omega) (by omega)
        omega
      rw [if_neg h10]
      have hdiv : 10 ^ k ≤ n / 10 := by
        rw [Nat.le_div_iff_mul_le (by omega)]
        calc 10 ^ k * 10 = 10 ^ (k + 1) := by rw [pow_succ]
        _ ≤ n := hpow
      have := ihk fuel (n / 10) (Char.ofNat (48 + n % 10) :: acc) (by omega) hdiv
      simp only [List.length_cons] at this
      omega

theorem encClipEvent_number {rate : ℚ} {reelLen : Int} {tt : Str} {c : Clip}
    {num : Int} {rec : RationalTime} {editType : Str} {transDur : Int}
    {ev : EDLEvent} {ro : RationalTime}
    (h : encClipEvent rate reelLen tt c num rec editType transDur = .ok (ev, ro)) :
    ev.eventNumber = num := by
  unfold encClipEvent at h
  rcases hd : c.duration with e | dur <;> simp only [hd] at h
  · exact absurd h (by simp)
  rcases hr : c.rangeForEncode with e2 | sr <;> simp only [hr] at h
  · exact absurd h (by simp)
  cases h
  rfl

theorem encChildren_numbers (rate : ℚ) (reelLen : Int) (tt : Str) :
    ∀ (N : Nat) (children : List TrackItem), children.length ≤ N →
      ∀ (num : Int) (rec : RationalTime),
        (encChildren rate reelLen tt children num rec).1.map EDLEvent.eventNumber =
          intRange num (encChildren rate reelLen tt children num rec).1.length := by
  intro N
  induction N with
  | zero =>
    intro children hlen num rec
    have h0 : children = [] := List.length_eq_zero.mp (by omega)
    subst h0
    rfl
  | succ N ih =>
    intro children hlen num rec
    rcases children with _ | ⟨item, rest⟩
    · rfl
    rcases item with c | d | ⟨tn, ty, tin, toff⟩
    · -- clipItem: case split on the following child (dissolve lookahead)
      rcases rest with _ | ⟨item2, r2⟩
      · rw [encChildren]
        case x_3 => intro a1 a2 a3 a4 a5 heq; simp at heq
        rcases hce : encClipEvent rate reelLen tt c num rec editTypeCut 0 with
          e | ⟨ev, ro⟩ <;> simp only [hce]
        · rfl
        · rcases htl : encChildren rate reelLen tt [] (num + 1) ro with ⟨tail, err⟩
          simp only [htl, List.map_cons, List.length_cons]
          have hnum := encClipEvent_number hce
          have hr := ih [] (by simp) (num + 1) ro
          rw [htl] at hr
          simp only at hr
          rw [hnum, hr]
          rfl
      rcases item2 with c2 | d2 | ⟨tn2, ty2, tin2, toff2⟩
      · rw [encChildren]
        case x_3 => intro a1 a2 a3 a4 a5 heq; simp at heq
        rcases hce : encClipEvent rate reelLen tt c num rec editTypeCut 0 with
          e | ⟨ev, ro⟩ <;> simp only [hce]
        · rfl
        · rcases htl : encChildren rate reelLen tt (TrackItem.clipItem c2 :: r2)
              (num + 1) ro with ⟨tail, err⟩
          simp only [htl, List.map_cons, List.length_cons]
          have hnum := encClipEvent_number hce
          have hr := ih (TrackItem.clipItem c2 :: r2) (by simp at hlen ⊢; omega)
            (num + 1) ro
          rw [htl] at hr
          simp only at hr
          rw [hnum, hr]
          rfl
      · rw [encChildren]
        case x_3 => intro a1 a2 a3 a4 a5 heq; simp at heq
        rcases hce : encClipEvent rate reelLen tt c num rec editTypeCut 0 with
          e | ⟨ev, ro⟩ <;> simp only [hce]
        · rfl
        · rcases htl : encChildren rate reelLen tt (TrackItem.gapItem d2 :: r2)
              (num + 1) ro with ⟨tail, err⟩
          simp only [htl, List.map_cons, List.length_cons]
          have hnum := encClipEvent_number hce
          have hr := ih (TrackItem.gapItem d2 :: r2) (by simp at hlen ⊢; omega)
            (num + 1) ro
          rw [htl] at hr
          simp only at hr
          rw [hnum, hr]
          rfl
      · rw [encChildren]
        rcases hce : encClipEvent rate reelLen tt c num rec
            (if ty2 = transitionTypeSMPTEDissolve then editTypeDissolve else editTypeCut)
            (if ty2 = transitionTypeSMPTEDissolve then ratTruncInt toff2.value else 0) with
          e | ⟨ev, ro⟩ <;> simp only [hce]
        · rfl
        · rcases htl : encChildren rate reelLen tt r2 (num + 1) ro with ⟨tail, err⟩
          simp only [htl, List.map_cons, List.length_cons]
          have hnum := encClipEvent_number hce
          have hr := ih r2 (by simp at hlen ⊢; omega) (num + 1) ro
          rw [htl] at hr
          simp only at hr
          rw [hnum, hr]
          rfl
    · rw [encChildren]
      exact ih rest (by simp at hlen; omega) num (rec.add d)
    · rw [encChildren]
      exact ih rest (by simp at hlen; omega) num rec

theorem encTracks_numbers (rate : ℚ) (reelLen : Int) :
    ∀ (pairs : List (Track × Str)) (num : Int),
      (encTracks rate reelLen pairs num).1.map EDLEvent.eventNumber =
        intRange num (encTracks rate reelLen pairs num).1.length := by
  intro pairs
  induction pairs with
  | nil => intro num; rfl
  | cons p rest ih =>
    intro num
    rcases p with ⟨tr, tt⟩
    rw [encTracks]
    have hch := encChildren_numbers rate reelLen tt tr.children.length tr.children
      (le_refl _) num (rtNew 0 rate)
    rcases hc : encChildren rate reelLen tt tr.children num (rtNew 0 rate) with ⟨evs, err⟩
    rw [hc] at hch
    simp only at hch
    rcases err with _ | e
    · simp only [hc]
      rcases ht : encTracks rate reelLen rest (num + evs.length) with ⟨evs2, err2⟩
      have hih := ih (num + evs.length)
      rw [ht] at hih
      simp only at hih
      simp only [ht, List.map_append, List.length_append]
      rw [hch, hih, intRange_append]
    · simp only [hc]
      exact hch

theorem hasPfx_append (p r : Str) : hasPfx (p ++ r) p = true := by
  induction p with
  | nil => simp [hasPfx]
  | cons c cr ih => simp [hasPfx, ih]

theorem hasPfx_append_left (p a r : Str) : hasPfx ((p ++ a) ++ r) p = true := by
  rw [List.append_assoc]
  exact hasPfx_append _ _

theorem natDigits_length_of_ge_1000 (n : Nat) (h : 1000 ≤ n) :
    4 ≤ (natDigits n).length := by
  have := natDigitsAux_length_ge 3 (n + 1) n [] (by omega)
    (by rw [show (10 : Nat) ^ 3 = 1000 from rfl]; omega)
  simpa [natDigits] using this

theorem padZeros_of_ge (w : Nat) (s : Str) (h : w ≤ s.length) :
    padZeros w s = s := by
  simp [padZeros, Nat.sub_eq_zero_of_le h]

theorem writeEventText_hasPfx (ev : EDLEvent) :
    hasPfx (writeEventText ev) (fmtInt0 3 ev.eventNumber) = true := by
  rw [writeEventText]
  simp only [List.append_assoc, List.cons_append]
  exact hasPfx_append _ _

set_option maxHeartbeats 2000000 in
set_option maxRecDepth 10000 in
theorem fmt3_pad_bounded :
    ∀ n : Nat, n < 1000 →
      (fmtInt0 3 (n : Int)).length = 3 ∧ natOfDigits (fmtInt0 3 (n : Int)) = n := by
  decide

/-- C9: for every timeline that `Encode` serialises successfully, the
emitted events carry event numbers from one counter shared across all
tracks, starting at 1 and increasing by 1 per emitted event; each event's
text starts with the `%03d` rendering of its number, which always has at
least three characters, is zero-padded to exactly width 3 for values below
1000 without altering the value, and prints values ≥ 1000 in full (all
decimal digits, value preserved). -/
theorem c9_event_numbering (rate : ℚ) (reelLen : Int) (tl : Timeline)
    (res : EncodeOut) (henc : encodeTimeline rate reelLen (some tl) = res)
    (hok : res.err = none) :
    res.events.map EDLEvent.eventNumber = intRange 1 res.events.length ∧
    (∀ ev ∈ res.events, hasPfx (writeEventText ev) (fmtInt0 3 ev.eventNumber) = true) ∧
    (∀ v : Int, 0 ≤ v → 3 ≤ (fmtInt0 3 v).length) ∧
    (∀ v : Int, 0 ≤ v → v < 1000 →
      (fmtInt0 3 v).length = 3 ∧ (natOfDigits (fmtInt0 3 v) : Int) = v) ∧
    (∀ v : Int, 1000 ≤ v →
      fmtInt0 3 v = natDigits v.toNat ∧ (natOfDigits (fmtInt0 3 v) : Int) = v) := by
  refine ⟨?_, fun ev _ => writeEventText_hasPfx ev, ?_, ?_, ?_⟩
  · simp only [encodeTimeline] at henc
    by_cases hv : 1 < tl.videoTracks.length
    · rw [if_pos hv] at henc
      rw [← henc] at hok
      simp at hok
    · rw [if_neg hv] at henc
      have := encTracks_numbers rate reelLen
        ((match tl.videoTracks with
          | [] => []
          | tr :: _ => [(tr, trackTypeVideo)]) ++
          tl.audioTracks.enum.map fun p => (p.2, audioTrackType p.1)) 1
      rcases ht : encTracks rate reelLen
          ((match tl.videoTracks with
            | [] => []
            | tr :: _ => [(tr, trackTypeVideo)]) ++
            tl.audioTracks.enum.map fun p => (p.2, audioTrackType p.1)) 1 with ⟨evs, err⟩
      rw [ht] at henc this
      simp only at henc this
      rw [← henc]
      exact this
  · intro v hv
    rw [fmtInt0, if_neg (by omega)]
    simp [padZeros]
    omega
  · intro v h0 h1000
    have := fmt3_pad_bounded v.toNat (by omega)
    rcases this with ⟨hl, hval⟩
    rw [show ((v.toNat : Nat) : Int) = v by omega] at hl hval
    exact ⟨hl, by rw [hval]; omega⟩
  · intro v hv
    have habs : v.natAbs = v.toNat := by omega
    have hlen := natDigits_length_of_ge_1000 v.natAbs (by omega)
    have hfmt : fmtInt0 3 v = natDigits v.toNat := by
      rw [fmtInt0, if_neg (by omega), padZeros_of_ge 3 _ (by omega), habs]
    refine ⟨hfmt, ?_⟩
    rw [hfmt, natOfDigits_natDigits]
    omega

def c9Clip (nm : Str) : Clip :=
  { name := nm
    mediaRef := some (.external nm nm (some ⟨rtNew 0 24, rtNew 120 24⟩))
    sourceRange := some ⟨rtNew 0 24, rtNew 120 24⟩
    metaCDL := none, metaWipeCode := none, effects := [], markers := [] }

def c9Timeline : Timeline :=
  ⟨"T".data,
   [⟨"V".data, trackKindVideo,
     [.clipItem (c9Clip "A".data), .clipItem (c9Clip "B".data)]⟩]⟩

def c9Res : EncodeOut := encodeTimeline 24 8 (some c9Timeline)

theorem c9_witness :
    c9Res.events.map EDLEvent.eventNumber = intRange 1 c9Res.events.length ∧
    (∀ ev ∈ c9Res.events,
      hasPfx (writeEventText ev) (fmtInt0 3 ev.eventNumber) = true) ∧
    (∀ v : Int, 0 ≤ v → 3 ≤ (fmtInt0 3 v).length) ∧
    (∀ v : Int, 0 ≤ v → v < 1000 →
      (fmtInt0 3 v).length = 3 ∧ (natOfDigits (fmtInt0 3 v) : Int) = v) ∧
    (∀ v : Int, 1000 ≤ v →
      fmtInt0 3 v = natDigits v.toNat ∧ (natOfDigits (fmtInt0 3 v) : Int) = v) :=
  c9_event_numbering 24 8 c9Timeline c9Res rfl (by rfl)

/-! ## Claim C1: supporting lemmas on strings and trimming -/

theorem takeWhile_append_all {p : Char → Bool} {a : Str} (s : Str)
    (h : ∀ c ∈ a, p c = true) :
    List.takeWhile p (a ++ s) = a ++ List.takeWhile p s := by
  induction a with
  | nil => simp
  | cons c r ih =>
    have hc := h c (by simp)
    simp only [List.cons_append, List.takeWhile_cons, hc]
    rw [ih fun x hx => h x (by simp [hx])]
    simp

theorem dropWhile_append_all {p : Char → Bool} {a : Str} (s : Str)
    (h : ∀ c ∈ a, p c = true) :
    List.dropWhile p (a ++ s) = List.dropWhile p s := by
  induction a with
  | nil => simp
  | cons c r ih =>
    have hc := h c (by simp)
    simp only [List.cons_append, List.dropWhile_cons, hc]
    exact ih fun x hx => h x (by simp [hx])

theorem trimRightSp_of_last {s : Str} {c : Char}
    (hl : s.getLast? = some c) (hc : isSp c = false) : trimRightSp s = s := by
  have hrev : s.reverse = c :: s.reverse.tail := by
    rcases hrev : s.reverse with _ | ⟨x, r⟩
    · rw [List.reverse_eq_nil_iff] at hrev
      subst hrev
      simp at hl
    · have : s.getLast? = some x := by
        rw [← List.head?_reverse, hrev]
        rfl
      rw [hl] at this
      cases this
      rfl
  have hne : s ≠ [] := by rintro rfl; simp at hl
  unfold trimRightSp
  rw [hrev]
  simp only [List.dropWhile_cons, hc, Bool.false_eq_true, if_false, List.reverse_cons]
  rw [← List.reverse_cons, ← hrev, List.reverse_reverse]

theorem trimRightSp_nil : trimRightSp [] = [] := rfl

theorem trimSp_head_cons {s : Str} {c : Char} (hc : isSp c = false) :
    trimSp (c :: s) = c :: trimRightSp s := by
  unfold trimSp trimLeftSp
  rw [List.dropWhile_cons]
  simp only [hc]
  exact trimRightSp_cons s hc

/-- Characters of the trimmed string are characters of the original. -/
theorem mem_trimSp {c : Char} {s : Str} (h : c ∈ trimSp s) : c ∈ s := by
  unfold trimSp trimRightSp trimLeftSp at h
  simp only [List.mem_reverse] at h
  have h1 := (List.dropWhile_sublist _).mem h
  simp only [List.mem_reverse] at h1
  exact (List.dropWhile_sublist _).mem h1

theorem newline_not_mem_trimSp {s : Str} (h : ('\n' : Char) ∉ s) :
    ('\n' : Char) ∉ trimSp s := fun hc => h (mem_trimSp hc)

/-- The last character of a string whose right trim is itself is not
whitespace (unless the string is empty). -/
theorem last_not_sp_of_trimRight {s : Str} {c : Char}
    (hself : trimRightSp s = s) (hl : s.getLast? = some c) : isSp c = false := by
  by_contra hsp
  rw [Bool.not_eq_false] at hsp
  have hrev : s.reverse = c :: s.reverse.tail := by
    rcases hrev : s.reverse with _ | ⟨x, r⟩
    · rw [List.reverse_eq_nil_iff] at hrev
      subst hrev
      simp at hl
    · have : s.getLast? = some x := by
        rw [← List.head?_reverse, hrev]
        rfl
      rw [hl] at this
      cases this
      rfl
  have hlen : (trimRightSp s).length < s.length := by
    unfold trimRightSp
    rw [hrev]
    simp only [List.dropWhile_cons, hsp]
    calc ((s.reverse.tail.dropWhile isSp).reverse).length
        = (s.reverse.tail.dropWhile isSp).length := by simp
      _ ≤ s.reverse.tail.length := (List.dropWhile_sublist _).length_le
      _ < s.reverse.length := by rw [hrev]; simp
      _ = s.length := by simp
  rw [hself] at hlen
  omega

theorem trimSp_eq_imp_trimRight {s : Str} (h : trimSp s = s) :
    trimRightSp s = s := by
  unfold trimSp at h
  have h1 : (trimLeftSp s).length ≤ s.length := (List.dropWhile_sublist _).length_le
  have h2 : (trimRightSp (trimLeftSp s)).length ≤ (trimLeftSp s).length := by
    unfold trimRightSp
    calc ((trimLeftSp s).reverse.dropWhile isSp).reverse.length
        = ((trimLeftSp s).reverse.dropWhile isSp).length := by simp
      _ ≤ (trimLeftSp s).reverse.length := (List.dropWhile_sublist _).length_le
      _ = (trimLeftSp s).length := by simp
  have hlen : (trimLeftSp s).length = s.length := by
    have := congrArg List.length h
    omega
  have hleft : trimLeftSp s = s :=
    (List.dropWhile_sublist _).eq_of_length hlen
  rw [hleft] at h
  exact h

theorem last_not_sp_of_trimSp {s : Str} {c : Char}
    (hself : trimSp s = s) (hl : s.getLast? = some c) : isSp c = false :=
  last_not_sp_of_trimRight (trimSp_eq_imp_trimRight hself) hl

theorem head_not_sp_of_trimSp {s : Str} {c : Char} {r : Str}
    (hself : trimSp s = s) (hs : s = c :: r) : isSp c = false := by
  subst hs
  by_contra hsp
  rw [Bool.not_eq_false] at hsp
  have hlen : (trimSp (c :: r)).length ≤ r.length := by
    unfold trimSp trimLeftSp
    rw [List.dropWhile_cons]
    simp only [hsp, if_true]
    calc (trimRightSp (r.dropWhile isSp)).length
        ≤ (r.dropWhile isSp).length := by
          unfold trimRightSp
          calc ((r.dropWhile isSp).reverse.dropWhile isSp).reverse.length
              = ((r.dropWhile isSp).reverse.dropWhile isSp).length := by simp
            _ ≤ (r.dropWhile isSp).reverse.length := (List.dropWhile_sublist _).length_le
            _ = (r.dropWhile isSp).length := by simp
      _ ≤ r.length := (List.dropWhile_sublist _).length_le
  rw [hself] at hlen
  simp at hlen

theorem head_dropWhile_not {p : Char → Bool} {s : Str} {c : Char} {r : Str}
    (h : s.dropWhile p = c :: r) : p c = false := by
  induction s with
  | nil => simp at h
  | cons a as ih =>
    rw [List.dropWhile_cons] at h
    by_cases hp : p a
    · rw [if_pos (by simp [hp])] at h
      exact ih h
    · rw [if_neg (by simpa using hp)] at h
      cases h
      simpa using hp

theorem dropWhile_sp_idem (s : Str) :
    List.dropWhile isSp (List.dropWhile isSp s) = List.dropWhile isSp s := by
  rcases hd : s.dropWhile isSp with _ | ⟨c, r⟩
  · rfl
  · rw [List.dropWhile_cons, if_neg (by simp [head_dropWhile_not hd])]

theorem trimRightSp_idem (s : Str) : trimRightSp (trimRightSp s) = trimRightSp s := by
  unfold trimRightSp
  rw [List.reverse_reverse, dropWhile_sp_idem]

theorem trimSp_idem (s : Str) : trimSp (trimSp s) = trimSp s := by
  have hinner : trimSp s = trimRightSp (trimLeftSp s) := rfl
  rcases hd : trimLeftSp s with _ | ⟨c, r⟩
  · rw [hinner, hd, trimRightSp_nil]
    rfl
  · have hc : isSp c = false := head_dropWhile_not hd
    rw [hinner, hd, trimRightSp_cons _ hc, trimSp_head_cons hc, trimRightSp_idem]

theorem mem_dropPfx {c : Char} {s p : Str} (h : c ∈ dropPfx s p) : c ∈ s :=
  (List.drop_sublist _ _).mem h

theorem matchEventLine_reel {l : Str} {h : EventHeader}
    (hm : matchEventLine l = some h) :
    h.reel ≠ [] ∧ ∀ c ∈ h.reel, isSp c = false := by
  simp only [matchEventLine] at hm
  split at hm
  · exact absurd hm (by simp)
  split at hm
  · exact absurd hm (by simp)
  split at hm
  · exact absurd hm (by simp)
  split at hm
  · exact absurd hm (by simp)
  split at hm
  · exact absurd hm (by simp)
  split at hm
  · exact absurd hm (by simp)
  next =>
    cases hm
    constructor
    · show List.takeWhile (fun c => !isSp c) _ ≠ []
      assumption
    · intro c hc
      simp only at hc
      have := List.mem_takeWhile_imp hc
      simpa using this

/-- The invariant of parse-produced events used by the round-trip proof: a
nonempty whitespace-free reel name, and a clip name that is its own trim and
contains no newline. -/
def evInv (ev : EDLEvent) : Prop :=
  ev.reelName ≠ [] ∧ (∀ c ∈ ev.reelName, isSp c = false) ∧
  trimSp ev.clipName = ev.clipName ∧ ('\n' : Char) ∉ ev.clipName

theorem evInv_mkEvent {l : Str} {h : EventHeader}
    (hm : matchEventLine l = some h) : evInv (mkEvent h) := by
  obtain ⟨hne, hsp⟩ := matchEventLine_reel hm
  exact ⟨hne, hsp, rfl, by simp [mkEvent]⟩

theorem evInv_setTimecodes {ev : EDLEvent} (hev : evInv ev)
    (tcs : Str × Str × Str × Str) : evInv (setTimecodes ev tcs) := hev

theorem evInv_applyComment {ev : EDLEvent} {t : Str} (hev : evInv ev)
    (ht : ('\n' : Char) ∉ t) : evInv (applyCommentLine ev t) := by
  obtain ⟨h1, h2, h3, h4⟩ := hev
  unfold applyCommentLine
  by_cases hA : hasPfx t pfxFromClipNameA = true
  · rw [if_pos hA]
    exact ⟨h1, h2, trimSp_idem _, fun hc => ht (mem_dropPfx (mem_trimSp hc))⟩
  rw [if_neg hA]
  by_cases hB : hasPfx t pfxFromClipNameB = true
  · rw [if_pos hB]
    exact ⟨h1, h2, trimSp_idem _, fun hc => ht (mem_dropPfx (mem_trimSp hc))⟩
  rw [if_neg hB]
  by_cases hC : hasPfx t pfxFromClipA = true
  · rw [if_pos hC]
    exact ⟨h1, h2, h3, h4⟩
  rw [if_neg hC]
  by_cases hD : hasPfx t pfxFromClipB = true
  · rw [if_pos hD]
    exact ⟨h1, h2, h3, h4⟩
  rw [if_neg hD]
  by_cases hE : hasPfx t pfxFromFileA = true
  · rw [if_pos hE]
    exact ⟨h1, h2, h3, h4⟩
  rw [if_neg hE]
  by_cases hF : hasPfx t pfxFromFileB = true
  · rw [if_pos hF]
    exact ⟨h1, h2, h3, h4⟩
  rw [if_neg hF]
  by_cases hG : hasPfx t pfxFreezeFrame = true ∨ hasSfx t sfxFF = true
  · rw [if_pos hG]
    exact ⟨h1, h2, h3, h4⟩
  rw [if_neg hG]
  rcases matchMarkerLine t with _ | m
  · rcases searchSOP t with _ | g
    · rcases searchSAT t with _ | v
      · split_ifs <;> exact ⟨h1, h2, h3, h4⟩
      · exact ⟨h1, h2, h3, h4⟩
    · exact ⟨h1, h2, h3, h4⟩
  · exact ⟨h1, h2, h3, h4⟩

theorem evInv_stepOther {cur : Option EDLEvent} {line t : Str}
    (hcur : ∀ ev, cur = some ev → evInv ev) (ht : ('\n' : Char) ∉ t) :
    ∀ ev, stepOther cur line t = some ev → evInv ev := by
  intro ev hev
  unfold stepOther at hev
  rcases cur with _ | ev0
  · simp at hev
  · have h0 := hcur ev0 rfl
    simp only at hev
    split_ifs at hev
    · rcases hsl : matchSpeedLine line with _ | se <;> simp only [hsl] at hev <;>
        cases hev
      · exact h0
      · exact h0
    · cases hev
      exact evInv_applyComment h0 ht

theorem mem_toList_eq {α : Type} {cur : Option α} {x : α}
    (h : x ∈ cur.toList) : cur = some x := by
  rcases cur with _ | y
  · simp at h
  · simp at h
    rw [h]

theorem parseLoop_inv :
    ∀ (N : Nat) (lines : List Str), lines.length ≤ N →
      ∀ (n : Nat) (cur : Option EDLEvent) (acc : List EDLEvent) (fcm : Str)
        (evs : List EDLEvent) (f : Str),
      (∀ l ∈ lines, ('\n' : Char) ∉ l) →
      (∀ ev ∈ acc, evInv ev) →
      (∀ ev, cur = some ev → evInv ev) →
      parseLoop lines n cur acc fcm = .ok (evs, f) →
      ∀ ev ∈ evs, evInv ev := by
  intro N
  induction N with
  | zero =>
    intro lines hlen n cur acc fcm evs f _ hacc hcur hok
    have h0 : lines = [] := List.length_eq_zero.mp (by omega)
    subst h0
    rw [parseLoop] at hok
    cases hok
    intro ev hev
    rcases List.mem_append.mp hev with h | h
    · exact hacc ev h
    · exact hcur ev (mem_toList_eq h)
  | succ N ih =>
    intro lines hlen n cur acc fcm evs f hnl hacc hcur hok
    rcases lines with _ | ⟨line, rest⟩
    · rw [parseLoop] at hok
      cases hok
      intro ev hev
      rcases List.mem_append.mp hev with h | h
      · exact hacc ev h
      · exact hcur ev (mem_toList_eq h)
    rw [parseLoop] at hok
    split_ifs at hok with hskip
    · exact ih rest (by simp at hlen; omega) (n + 1) cur acc _ evs f
        (fun l hl => hnl l (by simp [hl])) hacc hcur hok
    rcases hm : matchEventLine line with _ | h
    · -- no event header: stepOther
      simp only [hm] at hok
      exact ih rest (by simp at hlen; omega) (n + 1) _ acc fcm evs f
        (fun l hl => hnl l (by simp [hl])) hacc
        (evInv_stepOther hcur
          (newline_not_mem_trimSp (hnl line (by simp)))) hok
    · rcases rest with _ | ⟨tcl, rest2⟩
      · simp only [hm] at hok
        cases hok
        intro ev hev
        rcases List.mem_append.mp hev with hy | hy
        · rcases List.mem_append.mp hy with hz | hz
          · exact hacc ev hz
          · exact hcur ev (mem_toList_eq hz)
        · simp at hy
          rw [hy]
          exact evInv_mkEvent hm
      · rcases htc : matchTimecodeLine tcl with _ | tcs <;>
          simp only [hm, htc] at hok
        · exact absurd hok (by simp)
        · refine ih rest2 (by simp at hlen; omega) (n + 2) _ _ fcm evs f
            (fun l hl => hnl l (by simp [hl])) ?_ ?_ hok
          · intro ev hev
            rcases List.mem_append.mp hev with hz | hz
            · exact hacc ev hz
            · exact hcur ev (mem_toList_eq hz)
          · intro ev hev
            cases hev
            exact evInv_setTimecodes (evInv_mkEvent hm) tcs

/-! ## Scanner facts: `scanLines` tokens contain no newline, and a text built
from newline-free lines splits back into exactly those lines. -/

theorem no_newline_splitNLGo :
    ∀ (s acc : Str), ('\n' : Char) ∉ acc →
      ∀ l ∈ splitNLGo s acc, ('\n' : Char) ∉ l := by
  intro s
  induction s with
  | nil =>
    intro acc hacc l hl
    rw [splitNLGo] at hl
    simp only [List.mem_singleton] at hl
    subst hl
    simpa using hacc
  | cons c rest ih =>
    intro acc hacc l hl
    rw [splitNLGo] at hl
    by_cases hc : c = '\n'
    · rw [if_pos hc] at hl
      by_cases hr : rest = []
      · rw [if_pos hr] at hl
        simp only [List.mem_singleton] at hl
        subst hl
        simpa using hacc
      · rw [if_neg hr] at hl
        rcases List.mem_cons.mp hl with h | h
        · subst h
          simpa using hacc
        · exact ih [] (by simp) l h
    · rw [if_neg hc] at hl
      refine ih (c :: acc) ?_ l hl
      intro hmem
      rcases List.mem_cons.mp hmem with h | h
      · exact hc h.symm
      · exact hacc h

theorem mem_dropCR {c : Char} {s : Str} (h : c ∈ dropCR s) : c ∈ s := by
  unfold dropCR at h
  rcases hl : s.getLast? with _ | x
  · rwa [hl] at h
  · simp only [hl] at h
    split_ifs at h
    · exact (List.dropLast_sublist s).mem h
    · exact h

theorem scanLines_no_newline (text : Str) :
    ∀ l ∈ scanLines text, ('\n' : Char) ∉ l := by
  intro l hl hnl
  unfold scanLines at hl
  rcases List.mem_map.mp hl with ⟨l0, hl0, rfl⟩
  have hn0 : ('\n' : Char) ∉ l0 := by
    unfold splitNL at hl0
    rcases text with _ | ⟨c, r⟩
    · simp at hl0
    · exact no_newline_splitNLGo _ [] (by simp) l0 hl0
  exact hn0 (mem_dropCR hnl)

theorem splitNLGo_cons_line :
    ∀ (l : Str), ('\n' : Char) ∉ l → ∀ (r acc : Str), r ≠ [] →
      splitNLGo (l ++ '\n' :: r) acc = (acc.reverse ++ l) :: splitNLGo r [] := by
  intro l
  induction l with
  | nil =>
    intro _ r acc hr
    rw [List.nil_append, splitNLGo, if_pos rfl, if_neg hr]
    simp
  | cons c l' ih =>
    intro hnl r acc hr
    have hc : ¬ c = '\n' := fun h => hnl (by simp [h])
    rw [List.cons_append, splitNLGo, if_neg hc,
      ih (fun h => hnl (by simp [h])) r (c :: acc) hr]
    simp

theorem splitNLGo_last :
    ∀ (l : Str), ('\n' : Char) ∉ l → ∀ (acc : Str),
      splitNLGo (l ++ ['\n']) acc = [acc.reverse ++ l] := by
  intro l
  induction l with
  | nil =>
    intro _ acc
    rw [List.nil_append, splitNLGo, if_pos rfl, if_pos rfl]
    simp
  | cons c l' ih =>
    intro hnl acc
    have hc : ¬ c = '\n' := fun h => hnl (by simp [h])
    rw [List.cons_append, splitNLGo, if_neg hc, ih (fun h => hnl (by simp [h]))]
    simp

theorem dropCR_eq {s : Str} (h : s.getLast? ≠ some '\r') : dropCR s = s := by
  unfold dropCR
  rcases hl : s.getLast? with _ | c
  · rfl
  · simp only [hl]
    rw [if_neg]
    intro hc
    exact h (by rw [hl, hc])

/-- A nonempty string of non-whitespace characters does not end in `'\r'`. -/
theorem getLast_ne_cr {s : Str} (hne : s ≠ [])
    (h : ∀ c ∈ s, isSp c = false) : s.getLast? ≠ some '\r' := by
  intro hl
  have hmem : '\r' ∈ s := by
    have hgl := List.getLast?_eq_getLast s hne
    rw [hgl] at hl
    have h2 := Option.some.inj hl
    exact h2 ▸ List.getLast_mem hne
  have := h '\r' hmem
  simp [isSp] at this

/-! ## Character-class facts -/

theorem isSp_newline : isSp '\n' = true := by decide

theorem isReelCh_not_sp {c : Char} (h : isReelCh c = true) : isSp c = false := by
  by_contra hsp
  rw [Bool.not_eq_false] at hsp
  unfold isSp at hsp
  have hs := of_decide_eq_true hsp
  rcases hs with rfl | rfl | rfl | rfl | rfl | rfl <;> exact absurd h (by decide)

theorem not_sp_ne_newline {c : Char} (h : isSp c = false) : c ≠ '\n' := by
  rintro rfl
  simp [isSp] at h

/-! ## Rational-time arithmetic at rate 24 -/

theorem qdiv_qmul_cancel (v : ℚ) : qdiv (qmul v 24) 24 = v := by
  rw [qmul_eq, qdiv_eq]
  field_simp

theorem rescaledTo_24 (v : ℚ) :
    RationalTime.rescaledTo ⟨v, 24⟩ 24 = ⟨v, 24⟩ := by
  show (⟨qdiv (qmul v 24) 24, 24⟩ : RationalTime) = ⟨v, 24⟩
  rw [qdiv_qmul_cancel]

theorem rt_add_24 (a b : ℚ) :
    RationalTime.add ⟨a, 24⟩ ⟨b, 24⟩ = ⟨a + b, 24⟩ := by
  show (⟨qadd a (qdiv (qmul b 24) 24), 24⟩ : RationalTime) = ⟨a + b, 24⟩
  rw [qdiv_qmul_cancel, qadd_eq]

theorem durationFromStartEnd_24 (a b : ℚ) :
    durationFromStartEnd ⟨a, 24⟩ ⟨b, 24⟩ = ⟨b - a, 24⟩ := by
  show (⟨qsub (qdiv (qmul b 24) 24) a, 24⟩ : RationalTime) = ⟨b - a, 24⟩
  rw [qdiv_qmul_cancel, qsub_eq]

/-! ## Digit-character facts -/

theorem digit_facts : ∀ x < 10, isDigitCh (Char.ofNat (48 + x)) = true ∧
    (Char.ofNat (48 + x)).toNat = 48 + x ∧ isSp (Char.ofNat (48 + x)) = false ∧
    Char.ofNat (48 + x) ≠ ';' ∧ Char.ofNat (48 + x) ≠ '\r' := by decide

theorem isDigitCh_toNat {c : Char} (h : isDigitCh c = true) :
    48 ≤ c.toNat ∧ c.toNat ≤ 57 := by
  unfold isDigitCh at h
  obtain ⟨h1, h2⟩ := of_decide_eq_true h
  exact ⟨h1, h2⟩

theorem tcField_lt_100 {a b : Char} (ha : isDigitCh a = true)
    (hb : isDigitCh b = true) : tcField a b < 100 := by
  obtain ⟨ha1, ha2⟩ := isDigitCh_toNat ha
  obtain ⟨hb1, hb2⟩ := isDigitCh_toNat hb
  unfold tcField
  omega

theorem tcField_pad2 (k : Nat) (hk : k < 100) :
    tcField (Char.ofNat (48 + k / 10 % 10)) (Char.ofNat (48 + k % 10)) = k := by
  have h1 := (digit_facts (k / 10 % 10) (Nat.mod_lt _ (by norm_num))).2.1
  have h2 := (digit_facts (k % 10) (Nat.mod_lt _ (by norm_num))).2.1
  unfold tcField
  rw [h1, h2]
  omega

/-- The timecode string `toTimecode` renders for an integral frame count at
rate 24 (a proof-side abbreviation for the concatenation it emits). -/
def tcStr24 (n : Nat) : Str :=
  pad2 (n / 86400) ++ ':' :: pad2 (n / 1440 % 60) ++ ':' :: pad2 (n / 24 % 60) ++
    ':' :: pad2 (n % 24)

theorem mem_pad2 {k : Nat} {c : Char} (h : c ∈ pad2 k) :
    ∃ x, x < 10 ∧ c = Char.ofNat (48 + x) := by
  unfold pad2 at h
  rcases List.mem_cons.mp h with rfl | h
  · exact ⟨k / 10 % 10, Nat.mod_lt _ (by norm_num), rfl⟩
  · rcases List.mem_cons.mp h with rfl | h
    · exact ⟨k % 10, Nat.mod_lt _ (by norm_num), rfl⟩
    · simp at h

theorem mem_tcStr24 {n : Nat} {c : Char} (h : c ∈ tcStr24 n) :
    (∃ x, x < 10 ∧ c = Char.ofNat (48 + x)) ∨ c = ':' := by
  unfold tcStr24 at h
  rcases List.mem_append.mp h with h | h
  · rcases List.mem_append.mp h with h | h
    · rcases List.mem_append.mp h with h | h
      · exact .inl (mem_pad2 h)
      · rcases List.mem_cons.mp h with rfl | h
        · exact .inr rfl
        · exact .inl (mem_pad2 h)
    · rcases List.mem_cons.mp h with rfl | h
      · exact .inr rfl
      · exact .inl (mem_pad2 h)
  · rcases List.mem_cons.mp h with rfl | h
    · exact .inr rfl
    · exact .inl (mem_pad2 h)

theorem tcStr24_chars {n : Nat} {c : Char} (h : c ∈ tcStr24 n) :
    isSp c = false ∧ c ≠ ';' ∧ c ≠ '\r' := by
  rcases mem_tcStr24 h with ⟨x, hx, rfl⟩ | rfl
  · exact ⟨(digit_facts x hx).2.2.1, (digit_facts x hx).2.2.2.1,
      (digit_facts x hx).2.2.2.2⟩
  · exact ⟨by decide, by decide, by decide⟩

theorem tcStr24_ne_nil (n : Nat) : tcStr24 n ≠ [] := by
  unfold tcStr24 pad2
  simp

theorem map_noop {f : Char → Char} :
    ∀ (l : Str), (∀ c ∈ l, f c = c) → l.map f = l := by
  intro l h
  induction l with
  | nil => rfl
  | cons c r ih =>
    simp only [List.map_cons, h c (by simp)]
    rw [ih fun x hx => h x (by simp [hx])]

theorem dropWhile_sp_tcStr24 (n : Nat) (X : Str) :
    List.dropWhile isSp (tcStr24 n ++ X) = tcStr24 n ++ X := by
  have hsp := (digit_facts (n / 86400 / 10 % 10) (Nat.mod_lt _ (by norm_num))).2.2.1
  unfold tcStr24 pad2
  simp only [List.cons_append, List.dropWhile_cons, hsp]
  simp

theorem matchTCTok_tcStr24 (n : Nat) (r : Str) :
    matchTCTok (tcStr24 n ++ r) = some (tcStr24 n, r) := by
  have e : tcStr24 n ++ r =
      Char.ofNat (48 + n / 86400 / 10 % 10) :: Char.ofNat (48 + n / 86400 % 10) ::
      ':' :: Char.ofNat (48 + n / 1440 % 60 / 10 % 10) ::
      Char.ofNat (48 + n / 1440 % 60 % 10) ::
      ':' :: Char.ofNat (48 + n / 24 % 60 / 10 % 10) ::
      Char.ofNat (48 + n / 24 % 60 % 10) ::
      ':' :: Char.ofNat (48 + n % 24 / 10 % 10) ::
      Char.ofNat (48 + n % 24 % 10) :: r := rfl
  rw [e, matchTCTok]
  rw [if_pos]
  · rfl
  · refine ⟨(digit_facts _ (Nat.mod_lt _ (by norm_num))).1,
      (digit_facts _ (Nat.mod_lt _ (by norm_num))).1,
      (digit_facts _ (Nat.mod_lt _ (by norm_num))).1,
      (digit_facts _ (Nat.mod_lt _ (by norm_num))).1,
      (digit_facts _ (Nat.mod_lt _ (by norm_num))).1,
      (digit_facts _ (Nat.mod_lt _ (by norm_num))).1,
      .inl rfl,
      (digit_facts _ (Nat.mod_lt _ (by norm_num))).1,
      (digit_facts _ (Nat.mod_lt _ (by norm_num))).1⟩

/-! ## Timecode conversion at rate 24 -/

theorem mkRat_natCast (n : Nat) : mkRat (n : Int) 1 = (n : ℚ) := by
  rw [Rat.mkRat_one]
  exact_mod_cast rfl

theorem q24_num_toNat : ((24 : ℚ)).num.toNat = 24 := rfl

theorem qnat_num_toNat (n : Nat) : ((n : ℚ)).num.toNat = n := by
  rw [Rat.num_natCast]
  exact Int.toNat_natCast n

theorem toTimecode_24 {n : Nat} (hn : n < 8640000) :
    toTimecode ⟨(n : ℚ), 24⟩ 24 = .ok (tcStr24 n) := by
  unfold toTimecode
  rw [if_pos ?hcond]
  case hcond =>
    refine ⟨by decide, by decide, ?_, ?_⟩
    · rw [Rat.den_natCast]
    · rw [Rat.num_natCast]
      exact Int.natCast_nonneg n
  simp only [q24_num_toNat, qnat_num_toNat]
  rw [if_pos (by omega)]
  unfold tcStr24
  norm_num

theorem fromTimecode_tcStr24 {n : Nat} (hn : n < 8640000) :
    fromTimecode (tcStr24 n) 24 = .ok ⟨(n : ℚ), 24⟩ := by
  have e : tcStr24 n = [Char.ofNat (48 + n / 86400 / 10 % 10),
      Char.ofNat (48 + n / 86400 % 10), ':',
      Char.ofNat (48 + n / 1440 % 60 / 10 % 10),
      Char.ofNat (48 + n / 1440 % 60 % 10), ':',
      Char.ofNat (48 + n / 24 % 60 / 10 % 10),
      Char.ofNat (48 + n / 24 % 60 % 10), ':',
      Char.ofNat (48 + n % 24 / 10 % 10), Char.ofNat (48 + n % 24 % 10)] := rfl
  rw [e, fromTimecode]
  rw [if_pos ?hd]
  case hd =>
    exact decide_eq_true ⟨(digit_facts _ (Nat.mod_lt _ (by norm_num))).1,
      (digit_facts _ (Nat.mod_lt _ (by norm_num))).1,
      (digit_facts _ (Nat.mod_lt _ (by norm_num))).1,
      (digit_facts _ (Nat.mod_lt _ (by norm_num))).1,
      (digit_facts _ (Nat.mod_lt _ (by norm_num))).1,
      (digit_facts _ (Nat.mod_lt _ (by norm_num))).1,
      (digit_facts _ (Nat.mod_lt _ (by norm_num))).1,
      (digit_facts _ (Nat.mod_lt _ (by norm_num))).1⟩
  rw [if_pos rfl, if_pos (by decide)]
  have hh := tcField_pad2 (n / 86400) (by omega)
  have hm := tcField_pad2 (n / 1440 % 60) (by omega)
  have hs := tcField_pad2 (n / 24 % 60) (by omega)
  have hf := tcField_pad2 (n % 24) (by omega)
  simp only [hh, hm, hs, hf, q24_num_toNat]
  rw [if_pos ⟨by omega, by omega, by omega⟩]
  have harith : ((n / 86400 * 60 + n / 1440 % 60) * 60 + n / 24 % 60) * 24 +
      n % 24 = n := by omega
  simp only [Except.ok.injEq, RationalTime.mk.injEq, and_true]
  rw [Rat.mkRat_one]
  exact_mod_cast harith

theorem fromTimecode_ok_24 {s : Str} {t : RationalTime}
    (h : fromTimecode s 24 = .ok t) :
    ∃ n : Nat, n < 8640000 ∧ t = ⟨(n : ℚ), 24⟩ := by
  rw [fromTimecode.eq_def] at h
  split at h
  · rename_i c1 c2 c3 c4 c5 c6 sep2 c7 c8
    simp only [q24_num_toNat] at h
    split_ifs at h with hd hsep hrate hrange
    try simp only [decide_eq_true_eq] at hd
    obtain ⟨hd1, hd2, hd3, hd4, hd5, hd6, hd7, hd8⟩ := hd
    obtain ⟨hmm2, hss2, hff2⟩ := hrange
    rw [Except.ok.injEq] at h
    subst h
    refine ⟨((tcField c1 c2 * 60 + tcField c3 c4) * 60 + tcField c5 c6) * 24 +
      tcField c7 c8, ?_, ?_⟩
    · have hhh := tcField_lt_100 hd1 hd2
      omega
    · simp only [RationalTime.mk.injEq, and_true]
      rw [Rat.mkRat_one]
      push_cast
      ring
  · exact absurd h (by simp)

theorem formatTimecode_24 {n : Nat} (hn : n < 8640000) :
    formatTimecode 24 ⟨(n : ℚ), 24⟩ = tcStr24 n := by
  unfold formatTimecode
  rw [rescaledTo_24, toTimecode_24 hn]
  show (if ¬ isDropFrameRate 24 = true then
      List.map (fun c => if c = ';' then ':' else c) (tcStr24 n)
    else tcStr24 n) = tcStr24 n
  rw [if_pos (by decide)]
  exact map_noop _ fun c hc => if_neg (tcStr24_chars hc).2.1

theorem formatTimecode_sub24 (n m : Nat) (hm : m < 8640000) :
    formatTimecode 24 ⟨(m : ℚ) - (n : ℚ), 24⟩ = tcStr24 (m - n) := by
  rcases le_or_lt n m with hle | hlt
  · have hcast : (m : ℚ) - (n : ℚ) = ((m - n : Nat) : ℚ) :=
      (Nat.cast_sub hle).symm
    rw [hcast, formatTimecode_24 (by omega)]
  · have hz : m - n = 0 := by omega
    rw [hz]
    unfold formatTimecode
    rw [rescaledTo_24]
    have hneg : ((m : ℚ) - (n : ℚ)).num < 0 := by
      have hcast : (m : ℚ) - (n : ℚ) = (Int.cast ((m : Int) - (n : Int)) : ℚ) := by
        push_cast
        ring
      rw [hcast, Rat.num_intCast]
      omega
    unfold toTimecode
    rw [if_neg]
    · decide
    · rintro ⟨-, -, -, h4⟩
      have h4' : (0 : Int) ≤ ((m : ℚ) - (n : ℚ)).num := h4
      omega

/-! ## Sanitised reel names -/

theorem SanitizeReelName_props (name : Str) :
    SanitizeReelName name 8 ≠ [] ∧
    (∀ c ∈ SanitizeReelName name 8, isReelCh c = true) ∧
    (SanitizeReelName name 8).length ≤ 8 := by
  have hch : ∀ c ∈ name.map fun r => if isReelCh r then r else '_',
      isReelCh c = true := by
    intro c hc
    rcases List.mem_map.mp hc with ⟨x, _, rfl⟩
    by_cases hx : isReelCh x = true
    · rw [if_pos hx]
      exact hx
    · rw [if_neg hx]
      decide
  simp only [SanitizeReelName]
  split_ifs with h1 h2 h3
  · exact ⟨by decide, by decide, by decide⟩
  · refine ⟨h2, ?_, ?_⟩
    · intro c hc
      exact hch c ((List.take_sublist _ _).mem hc)
    · rw [List.length_take]
      have h8 : ((8 : Int)).toNat = 8 := rfl
      omega
  · exact ⟨by decide, by decide, by decide⟩
  · refine ⟨h3, hch, ?_⟩
    push_neg at h1
    have h8 := h1 (by norm_num)
    exact_mod_cast h8

/-! ## Skip-line and whitespace-block facts -/

theorem isSkipLine_cons {c : Char} {w : Str} (h1 : c ≠ 'T') (h2 : c ≠ 'F') :
    isSkipLine (c :: w) = false := by
  apply decide_eq_false
  rintro (h | h | h)
  · simp at h
  · have h' := of_decide_eq_true h
    exact h1 h'.1.symm
  · have h' := of_decide_eq_true h
    exact h2 h'.1.symm

theorem trimSp_cons_sp (s : Str) : trimSp (' ' :: s) = trimSp s := by
  unfold trimSp trimLeftSp
  rw [List.dropWhile_cons]
  rw [if_pos (show isSp ' ' = true from rfl)]

theorem headIsSp_sp_seq (k : Nat) (R : Str) :
    headIsSp (List.replicate k ' ' ++ ' ' :: R) = true := by
  cases k with
  | zero => rfl
  | succ k => rfl

theorem takeWhile_nsp_sp_seq (k : Nat) (R : Str) :
    (List.replicate k ' ' ++ ' ' :: R).takeWhile (fun c => !isSp c) = [] := by
  cases k with
  | zero => rfl
  | succ k => rfl

theorem dropWhile_nsp_sp_seq (k : Nat) (R : Str) :
    (List.replicate k ' ' ++ ' ' :: R).dropWhile (fun c => !isSp c) =
      List.replicate k ' ' ++ ' ' :: R := by
  cases k with
  | zero => rfl
  | succ k => rfl

theorem dropWhile_sp_sp_seq (k : Nat) {R : Str} {c : Char} {r : Str}
    (hR : R = c :: r) (hc : isSp c = false) :
    (List.replicate k ' ' ++ ' ' :: R).dropWhile isSp = R := by
  induction k with
  | zero =>
    subst hR
    show List.dropWhile isSp (c :: r) = c :: r
    rw [List.dropWhile_cons]
    simp [hc]
  | succ k ih =>
    rw [List.replicate_succ, List.cons_append, List.dropWhile_cons]
    simp only [show isSp ' ' = true from rfl, if_true]
    exact ih

theorem no_newline_append {a b : Str} (ha : ('\n' : Char) ∉ a)
    (hb : ('\n' : Char) ∉ b) : ('\n' : Char) ∉ a ++ b := by
  intro h
  rcases List.mem_append.mp h with h | h
  exacts [ha h, hb h]

theorem no_newline_of_no_sp {s : Str} (h : ∀ c ∈ s, isSp c = false) :
    ('\n' : Char) ∉ s := by
  intro hc
  have hf := h _ hc
  rw [isSp_newline] at hf
  cases hf

theorem no_newline_replicate_sp (k : Nat) :
    ('\n' : Char) ∉ List.replicate k ' ' := by
  intro h
  exact absurd (List.eq_of_mem_replicate h) (by decide)

theorem no_newline_tcStr24 (n : Nat) : ('\n' : Char) ∉ tcStr24 n :=
  no_newline_of_no_sp fun _ hc => (tcStr24_chars hc).1

/-! ## Single-step equations of `parseLoop` -/

theorem parseLoop_skip {line : Str} (h : isSkipLine (trimSp line) = true)
    (rest : List Str) (n : Nat) (cur : Option EDLEvent) (acc : List EDLEvent)
    (fcm : Str) :
    parseLoop (line :: rest) n cur acc fcm =
      parseLoop rest (n + 1) cur acc (stepFcm (trimSp line) fcm) := by
  rw [parseLoop]
  simp only [h]
  rw [if_pos trivial]

theorem parseLoop_other {line : Str} (hskip : isSkipLine (trimSp line) = false)
    (hm : matchEventLine line = none) (rest : List Str) (n : Nat)
    (cur : Option EDLEvent) (acc : List EDLEvent) (fcm : Str) :
    parseLoop (line :: rest) n cur acc fcm =
      parseLoop rest (n + 1) (stepOther cur line (trimSp line)) acc fcm := by
  rw [parseLoop]
  simp only [hskip, Bool.false_eq_true, if_false, hm]

theorem parseLoop_event {line tcl : Str} {h : EventHeader}
    {tcs : Str × Str × Str × Str}
    (hskip : isSkipLine (trimSp line) = false)
    (hm : matchEventLine line = some h)
    (htc : matchTimecodeLine tcl = some tcs)
    (rest2 : List Str) (n : Nat) (cur : Option EDLEvent)
    (acc : List EDLEvent) (fcm : Str) :
    parseLoop (line :: tcl :: rest2) n cur acc fcm =
      parseLoop rest2 (n + 2) (some (setTimecodes (mkEvent h) tcs))
        (acc ++ cur.toList) fcm := by
  rw [parseLoop]
  simp only [hskip, Bool.false_eq_true, if_false, hm, htc]

theorem parseLoop_nil (n : Nat) (cur : Option EDLEvent) (acc : List EDLEvent)
    (fcm : Str) : parseLoop [] n cur acc fcm = .ok (acc ++ cur.toList, fcm) := by
  rw [parseLoop]

/-! ## The encoder's emitted lines re-parse -/

theorem matchEventLine_enc {rc : Char} {rr : Str} (tt : Str)
    (h2 : ∀ c ∈ rc :: rr, isSp c = false) (k : Nat)
    (htt : tt = trackTypeVideo ∨ tt = trackTypeAudio1) :
    matchEventLine ('0' :: '0' :: '1' :: ' ' :: ' ' ::
      ((rc :: rr) ++ (List.replicate k ' ' ++ ' ' ::
        (tt ++ (' ' :: ' ' :: ' ' :: ' ' :: 'C' :: ' ' :: []))))) =
      some ⟨['0', '0', '1'], rc :: rr, tt, ['C'], []⟩ := by
  have hrc : isSp rc = false := h2 rc (by simp)
  have h2' : ∀ c ∈ rc :: rr, (!isSp c) = true := fun c hc => by
    rw [h2 c hc]
    rfl
  set S := List.replicate k ' ' ++ ' ' ::
    (tt ++ (' ' :: ' ' :: ' ' :: ' ' :: 'C' :: ' ' :: [])) with hS
  set X := (rc :: rr) ++ S with hX
  unfold matchEventLine
  have e1 : List.dropWhile isSp ('0' :: '0' :: '1' :: ' ' :: ' ' :: X) =
      '0' :: '0' :: '1' :: ' ' :: ' ' :: X := rfl
  have e2 : List.takeWhile isDigitCh ('0' :: '0' :: '1' :: ' ' :: ' ' :: X) =
      ['0', '0', '1'] := rfl
  have e3 : List.dropWhile isDigitCh ('0' :: '0' :: '1' :: ' ' :: ' ' :: X) =
      ' ' :: ' ' :: X := rfl
  have e4 : List.dropWhile isSp (' ' :: ' ' :: X) = X := by
    show List.dropWhile isSp X = X
    rw [hX, List.cons_append, List.dropWhile_cons]
    simp [hrc]
  have e5 : List.takeWhile (fun c => !isSp c) X = rc :: rr := by
    rw [hX, takeWhile_append_all _ h2', hS, takeWhile_nsp_sp_seq,
      List.append_nil]
  have e6 : List.dropWhile (fun c => !isSp c) X = S := by
    rw [hX, dropWhile_append_all _ h2', hS, dropWhile_nsp_sp_seq]
  have e7 : headIsSp S = true := by
    rw [hS]
    exact headIsSp_sp_seq k _
  have e8 : List.dropWhile isSp S =
      tt ++ (' ' :: ' ' :: ' ' :: ' ' :: 'C' :: ' ' :: []) := by
    rw [hS]
    rcases htt with rfl | rfl
    · exact dropWhile_sp_sp_seq k rfl rfl
    · exact dropWhile_sp_sp_seq k rfl rfl
  simp only [e1, e2, e3, e4, e5, e6, e7, e8]
  rcases htt with rfl | rfl
  · rfl
  · rfl

theorem matchTimecodeLine_enc (a b c d : Nat) :
    matchTimecodeLine (' ' :: ' ' :: ' ' :: ' ' :: ' ' ::
      (tcStr24 a ++ (' ' :: (tcStr24 b ++ (' ' :: (tcStr24 c ++ (' ' ::
        tcStr24 d))))))) = some (tcStr24 a, tcStr24 b, tcStr24 c, tcStr24 d) := by
  unfold matchTimecodeLine
  have e1 : List.dropWhile isSp (' ' :: ' ' :: ' ' :: ' ' :: ' ' ::
      (tcStr24 a ++ (' ' :: (tcStr24 b ++ (' ' :: (tcStr24 c ++ (' ' ::
        tcStr24 d))))))) =
      tcStr24 a ++ (' ' :: (tcStr24 b ++ (' ' :: (tcStr24 c ++ (' ' ::
        tcStr24 d))))) := by
    show List.dropWhile isSp (tcStr24 a ++ _) = _
    exact dropWhile_sp_tcStr24 a _
  have e2 : List.dropWhile isSp (' ' :: (tcStr24 b ++ (' ' :: (tcStr24 c ++
      (' ' :: tcStr24 d))))) =
      tcStr24 b ++ (' ' :: (tcStr24 c ++ (' ' :: tcStr24 d))) := by
    show List.dropWhile isSp (tcStr24 b ++ _) = _
    exact dropWhile_sp_tcStr24 b _
  have e3 : List.dropWhile isSp (' ' :: (tcStr24 c ++ (' ' :: tcStr24 d))) =
      tcStr24 c ++ (' ' :: tcStr24 d) := by
    show List.dropWhile isSp (tcStr24 c ++ _) = _
    exact dropWhile_sp_tcStr24 c _
  have e4 : List.dropWhile isSp (' ' :: tcStr24 d) = tcStr24 d := by
    show List.dropWhile isSp (tcStr24 d) = _
    have h0 := dropWhile_sp_tcStr24 d []
    rwa [List.append_nil] at h0
  have e5 : matchTCTok (tcStr24 d) = some (tcStr24 d, []) := by
    have h0 := matchTCTok_tcStr24 d []
    rwa [List.append_nil] at h0
  rw [e1, matchTCTok_tcStr24]
  simp only
  rw [if_neg (by simp [headIsSp, isSp])]
  rw [e2, matchTCTok_tcStr24]
  simp only
  rw [if_neg (by simp [headIsSp, isSp])]
  rw [e3, matchTCTok_tcStr24]
  simp only
  rw [if_neg (by simp [headIsSp, isSp])]
  rw [e4, e5]

theorem matchEventLine_star (w : Str) : matchEventLine ('*' :: w) = none := rfl

theorem stepOther_star (ev : EDLEvent) (line w : Str) :
    stepOther (some ev) line ('*' :: w) = some (applyCommentLine ev ('*' :: w)) := by
  simp [stepOther, show hasPfx ('*' :: w) pfxM2 = false from rfl]

theorem mkEvent_enc (reel tt : Str) :
    mkEvent ⟨['0', '0', '1'], reel, tt, ['C'], []⟩ =
      { eventNumber := 1, reelName := reel, trackType := tt,
        editType := editTypeCut } := rfl

theorem applyCommentLine_clipName (ev : EDLEvent) (nm : Str)
    (hnm : trimSp nm = nm) :
    applyCommentLine ev ("* FROM CLIP NAME: ".data ++ nm) =
      { ev with clipName := nm } := by
  have hsplit : "* FROM CLIP NAME: ".data ++ nm =
      pfxFromClipNameB ++ (' ' :: nm) := by
    rw [show "* FROM CLIP NAME: ".data = pfxFromClipNameB ++ [' '] from rfl,
      List.append_assoc]
    rfl
  rw [hsplit]
  unfold applyCommentLine
  have hA : hasPfx (pfxFromClipNameB ++ (' ' :: nm)) pfxFromClipNameA = false := by
    rw [show pfxFromClipNameB ++ (' ' :: nm) =
      '*' :: ' ' :: ("FROM CLIP NAME:".data ++ (' ' :: nm)) from rfl]
    apply decide_eq_false
    rintro ⟨-, h⟩
    have h' := of_decide_eq_true h
    exact absurd h'.1 (by decide)
  rw [if_neg (by simp [hA]), if_pos (hasPfx_append _ _)]
  have hdp : dropPfx (pfxFromClipNameB ++ (' ' :: nm)) pfxFromClipNameB =
      ' ' :: nm := List.drop_left _ _
  rw [hdp, trimSp_cons_sp, hnm]

/-! ## Observables of a decoded timeline -/

/-- The clip observable of a track child: the owning track's kind, the clip
name, and the duration of the clip's source range. -/
def clipObsOf (kind : Str) : TrackItem → Option (Str × Str × Option RationalTime)
  | .clipItem c => some (kind, c.name, c.sourceRange.map TimeRange.duration)
  | _ => none

/-- All clips of a timeline, in track-then-child order, as (track kind, clip
name, source-range duration) triples. -/
def timelineObs (tl : Timeline) : List (Str × Str × Option RationalTime) :=
  (tl.tracks.map fun tr => tr.children.filterMap (clipObsOf tr.kind)).join

/-- The claim's precondition "source duration equals record duration" on a
parsed event's four timecodes at the decode rate. -/
def eventDursMatch (rate : ℚ) (e : EDLEvent) : Bool :=
  match fromTimecode e.sourceIn rate, fromTimecode e.sourceOut rate,
        fromTimecode e.recordIn rate, fromTimecode e.recordOut rate with
  | .ok si, .ok so, .ok ri, .ok ro =>
    (durationFromStartEnd si so).value = (durationFromStartEnd ri ro).value
  | _, _, _, _ => false

theorem firstSeenKeys_singleton (e : EDLEvent) :
    firstSeenKeys [e] = [e.trackType] := by
  simp [firstSeenKeys, firstSeenKeysAux]

theorem eventsGroup_singleton (e : EDLEvent) :
    eventsGroup [e] e.trackType = [e] := by
  simp [eventsGroup]

theorem gapPart_zero (ri : RationalTime) : gapPart rtZeroValue ri = [] := by
  unfold gapPart
  rw [if_neg (by decide)]

theorem transPart_shape (rate : ℚ) (e : EDLEvent) :
    transPart rate e = [] ∨
    ∃ (nm ty : Str) (io oo : RationalTime),
      transPart rate e = [TrackItem.transitionItem nm ty io oo] := by
  unfold transPart
  split_ifs with h1 h2 h3
  · exact .inr ⟨_, _, _, _, rfl⟩
  · exact .inr ⟨_, _, _, _, rfl⟩
  · exact .inr ⟨_, _, _, _, rfl⟩
  · exact .inl rfl

theorem transPart_cut {rate : ℚ} {e : EDLEvent} (h : e.editType = editTypeCut) :
    transPart rate e = [] := by
  unfold transPart
  rw [if_neg]
  rintro ⟨h1 | h1, -⟩ <;> rw [h] at h1 <;> exact absurd h1 (by decide)

theorem filterMap_eventSeg (rate : ℚ) (e : EDLEvent) (si so ri : RationalTime)
    (k : Str) :
    (eventSeg rate rtZeroValue e si so ri).filterMap (clipObsOf k) =
      [(k, (buildClip rate e si so).name,
        some (durationFromStartEnd si so))] := by
  unfold eventSeg
  rw [gapPart_zero, List.nil_append, List.filterMap_append]
  have htp : (transPart rate e).filterMap (clipObsOf k) = [] := by
    rcases transPart_shape rate e with h | ⟨nm, ty, io, oo, h⟩ <;> rw [h] <;> rfl
  rw [htp, List.nil_append]
  rfl

theorem timelineObs_single (tr : Track) :
    timelineObs ⟨[], [tr]⟩ = tr.children.filterMap (clipObsOf tr.kind) := by
  simp [timelineObs]

theorem buildClip_name_no_newline {rate : ℚ} {e : EDLEvent}
    {si so : RationalTime} (hinv : evInv e) :
    ('\n' : Char) ∉ (buildClip rate e si so).name := by
  obtain ⟨h1, h2, h3, h4⟩ := hinv
  intro hc
  have hname : (buildClip rate e si so).name =
      (let clipName0 := if e.clipName = [] then e.reelName else e.clipName
       if e.freezeFrame ∧ hasSfx clipName0 sfxFF then
         clipName0.take (clipName0.length - 3) else clipName0) := rfl
  rw [hname] at hc
  simp only at hc
  set c0 := if e.clipName = [] then e.reelName else e.clipName with hc0
  have hc0mem : ('\n' : Char) ∉ c0 := by
    rw [hc0]
    split_ifs
    · intro hm
      have hf := h2 _ hm
      rw [isSp_newline] at hf
      cases hf
    · exact h4
  split_ifs at hc
  · exact hc0mem ((List.take_sublist _ _).mem hc)
  · exact hc0mem hc

/-! ## Encoder computation shapes -/

theorem encClipEvent_shape (rate : ℚ) (reelLen : Int) (tt : Str) (c : Clip)
    (r : TimeRange) (hsr : c.sourceRange = some r) (num : Int)
    (rec : RationalTime) (ed : Str) (td : Int) :
    ∃ rn, encClipEvent rate reelLen tt c num rec ed td =
      .ok ({ eventNumber := num,
             reelName := SanitizeReelName rn reelLen,
             trackType := tt, editType := ed,
             sourceIn := formatTimecode rate r.startTime,
             sourceOut := formatTimecode rate (r.startTime.add r.duration),
             recordIn := formatTimecode rate rec,
             recordOut := formatTimecode rate (rec.add r.duration),
             clipName := c.name, transitionDuration := td },
           rec.add r.duration) := by
  unfold encClipEvent Clip.duration Clip.rangeForEncode
  rw [hsr]
  exact ⟨_, rfl⟩

theorem encChildren_single_clip (rate : ℚ) (reelLen : Int) (tt : Str) (c : Clip)
    (num : Int) (rec : RationalTime) {ev : EDLEvent} {ro : RationalTime}
    (henc : encClipEvent rate reelLen tt c num rec editTypeCut 0 = .ok (ev, ro)) :
    encChildren rate reelLen tt [.clipItem c] num rec = ([ev], none) := by
  rw [encChildren]
  case x_3 => intro a1 a2 a3 a4 a5 heq; simp at heq
  simp only [henc]
  rfl

theorem encChildren_trans_cons (rate : ℚ) (reelLen : Int) (tt : Str)
    (nm ty : Str) (io oo : RationalTime) (rest : List TrackItem) (num : Int)
    (rec : RationalTime) :
    encChildren rate reelLen tt (.transitionItem nm ty io oo :: rest) num rec =
      encChildren rate reelLen tt rest num rec := by
  rw [encChildren]

theorem encTracks_single (rate : ℚ) (reelLen : Int) (tr : Track) (tt : Str)
    (num : Int) {evs : List EDLEvent}
    (h : encChildren rate reelLen tt tr.children num (rtNew 0 rate) =
      (evs, none)) :
    encTracks rate reelLen [(tr, tt)] num = (evs, none) := by
  rw [encTracks]
  simp only [h]
  simp [encTracks]

/-! ## The emitted text of a single cut event, and its line scan -/

theorem writeEventText_enc (reel tt nmv s1 s2 s3 s4 : Str) (hne : nmv ≠ []) :
    writeEventText { eventNumber := 1
                     reelName := reel
                     trackType := tt
                     editType := editTypeCut
                     sourceIn := s1
                     sourceOut := s2
                     recordIn := s3
                     recordOut := s4
                     clipName := nmv
                     transitionDuration := 0 } =
    ("001  ".data ++ (reel ++ (List.replicate (8 - reel.length) ' ' ++
      (" ".data ++ (tt ++ "    C ".data))))) ++ '\n' ::
    (("     ".data ++ (s1 ++ (" ".data ++ (s2 ++ (" ".data ++ (s3 ++
      (" ".data ++ s4))))))) ++ '\n' ::
    (("* FROM CLIP NAME: ".data ++ nmv) ++ '\n' :: ['\n'])) := by
  unfold writeEventText
  dsimp only
  rw [if_neg (by rintro ⟨hx, -⟩; exact absurd hx (by decide))]
  rw [if_pos hne]
  rw [show fmtInt0 3 (1 : Int) = ['0', '0', '1'] from rfl]
  rw [show padRight 2 editTypeCut = ['C', ' '] from rfl]
  rw [show padRight 8 reel = reel ++ List.replicate (8 - reel.length) ' ' from rfl]
  simp [List.append_assoc]

theorem scanLines_seven (l4 l5 l6 : Str)
    (h4 : ('\n' : Char) ∉ l4) (h5 : ('\n' : Char) ∉ l5)
    (h6 : ('\n' : Char) ∉ l6)
    (c4 : l4.getLast? ≠ some '\r') (c5 : l5.getLast? ≠ some '\r')
    (c6 : l6.getLast? ≠ some '\r') :
    scanLines ("TITLE: Timeline".data ++ '\n' ::
      ("FCM: NON-DROP FRAME".data ++ '\n' :: '\n' ::
        (l4 ++ '\n' :: (l5 ++ '\n' :: (l6 ++ '\n' :: ['\n']))))) =
      ["TITLE: Timeline".data, "FCM: NON-DROP FRAME".data, [], l4, l5, l6,
        []] := by
  unfold scanLines
  have hsplit : splitNL ("TITLE: Timeline".data ++ '\n' ::
      ("FCM: NON-DROP FRAME".data ++ '\n' :: '\n' ::
        (l4 ++ '\n' :: (l5 ++ '\n' :: (l6 ++ '\n' :: ['\n']))))) =
      ["TITLE: Timeline".data, "FCM: NON-DROP FRAME".data, [], l4, l5, l6,
        []] := by
    show splitNLGo ("TITLE: Timeline".data ++ '\n' ::
      ("FCM: NON-DROP FRAME".data ++ '\n' :: '\n' ::
        (l4 ++ '\n' :: (l5 ++ '\n' :: (l6 ++ '\n' :: ['\n']))))) [] = _
    rw [splitNLGo_cons_line _ (by decide) _ _ (by simp)]
    rw [splitNLGo_cons_line _ (by decide) _ _ (by simp)]
    rw [show ('\n' :: (l4 ++ '\n' :: (l5 ++ '\n' :: (l6 ++ '\n' ::
      ['\n'])))) = ([] : Str) ++ '\n' :: (l4 ++ '\n' :: (l5 ++ '\n' ::
      (l6 ++ '\n' :: ['\n']))) from rfl]
    rw [splitNLGo_cons_line _ (by simp) _ _ (by simp)]
    rw [splitNLGo_cons_line _ h4 _ _ (by simp)]
    rw [splitNLGo_cons_line _ h5 _ _ (by simp)]
    rw [splitNLGo_cons_line _ h6 _ _ (by simp)]
    rw [show (['\n'] : Str) = ([] : Str) ++ ['\n'] from rfl]
    rw [splitNLGo_last _ (by simp)]
    simp
  rw [hsplit]
  simp only [List.map_cons, List.map_nil]
  rw [dropCR_eq c4, dropCR_eq c5, dropCR_eq c6]
  rw [show dropCR "TITLE: Timeline".data = "TITLE: Timeline".data from by decide]
  rw [show dropCR "FCM: NON-DROP FRAME".data = "FCM: NON-DROP FRAME".data
    from by decide]
  rw [show dropCR ([] : Str) = ([] : Str) from rfl]

/-! ## Remaining assembly helpers -/

theorem getLast?_append_right {l2 : Str} (l1 : Str) (h : l2 ≠ []) :
    (l1 ++ l2).getLast? = l2.getLast? := by
  rw [← List.head?_reverse, List.reverse_append, ← List.head?_reverse]
  rcases hl2 : l2.reverse with _ | ⟨c, r⟩
  · rw [List.reverse_eq_nil_iff] at hl2
    exact absurd hl2 h
  · rfl

theorem app_ne_nil_of_right {l2 : Str} (l1 : Str) (h : l2 ≠ []) :
    l1 ++ l2 ≠ [] := by
  intro hc
  rcases List.append_eq_nil.mp hc with ⟨-, h2⟩
  exact h h2

theorem timelineObs_single2 (tn kd : Str) (ch : List TrackItem) :
    timelineObs ⟨[], [⟨tn, kd, ch⟩]⟩ = ch.filterMap (clipObsOf kd) := by
  simp [timelineObs]

theorem chain_assemble (x : Str) :
    ("TITLE: Timeline".data ++ '\n' ::
      ("FCM: NON-DROP FRAME".data ++ '\n' :: ['\n'])) ++ (x ++ []) =
    "TITLE: Timeline".data ++ '\n' ::
      ("FCM: NON-DROP FRAME".data ++ '\n' :: '\n' :: x) := by
  simp [List.append_assoc]

theorem encodeTimeline_single_video (tt0 : Str) (items : List TrackItem)
    {ev : EDLEvent}
    (h : encChildren 24 8 trackTypeVideo items 1 (rtNew 0 24) = ([ev], none)) :
    encodeDefault (some ⟨[], [⟨tt0, trackKindVideo, items⟩]⟩) =
      ⟨headerText ⟨[], [⟨tt0, trackKindVideo, items⟩]⟩ ++
        (writeEventText ev ++ []), [ev], none⟩ := by
  have hET : encTracks 24 8 [(⟨tt0, trackKindVideo, items⟩, trackTypeVideo)] 1 =
      ([ev], none) := encTracks_single 24 8 _ _ 1 h
  unfold encodeDefault encodeTimeline defaultReelNameLength
  have hvts : Timeline.videoTracks ⟨[], [⟨tt0, trackKindVideo, items⟩]⟩ =
      [⟨tt0, trackKindVideo, items⟩] := rfl
  have hats : Timeline.audioTracks ⟨[], [⟨tt0, trackKindVideo, items⟩]⟩ =
      [] := rfl
  simp only [hvts, hats]
  rw [if_neg (by simp)]
  simp only [List.enum_nil, List.map_nil, List.append_nil, hET]
  simp [strJoin]

theorem encodeTimeline_single_audio (tt0 : Str) (items : List TrackItem)
    {ev : EDLEvent}
    (h : encChildren 24 8 trackTypeAudio1 items 1 (rtNew 0 24) = ([ev], none)) :
    encodeDefault (some ⟨[], [⟨tt0, trackKindAudio, items⟩]⟩) =
      ⟨headerText ⟨[], [⟨tt0, trackKindAudio, items⟩]⟩ ++
        (writeEventText ev ++ []), [ev], none⟩ := by
  have hET : encTracks 24 8 [(⟨tt0, trackKindAudio, items⟩, trackTypeAudio1)] 1 =
      ([ev], none) := encTracks_single 24 8 _ _ 1 h
  unfold encodeDefault encodeTimeline defaultReelNameLength
  have hvts : Timeline.videoTracks ⟨[], [⟨tt0, trackKindAudio, items⟩]⟩ =
      [] := rfl
  have hats : Timeline.audioTracks ⟨[], [⟨tt0, trackKindAudio, items⟩]⟩ =
      [⟨tt0, trackKindAudio, items⟩] := rfl
  simp only [hvts, hats]
  rw [if_neg (by simp)]
  rw [show List.enum [(⟨tt0, trackKindAudio, items⟩ : Track)] =
    [(0, ⟨tt0, trackKindAudio, items⟩)] from rfl]
  simp only [List.map_cons, List.map_nil]
  rw [show audioTrackType 0 = trackTypeAudio1 from rfl]
  simp only [List.nil_append, hET]
  simp [strJoin]

/-- The event record the encoder emits for a single cut clip (a proof-side
abbreviation). -/
def encEvent (tt reel nmv : Str) (n m p : Nat) : EDLEvent :=
  { eventNumber := 1
    reelName := reel
    trackType := tt
    editType := editTypeCut
    sourceIn := tcStr24 n
    sourceOut := tcStr24 m
    recordIn := tcStr24 0
    recordOut := tcStr24 p
    clipName := nmv
    transitionDuration := 0 }

theorem writeEventText_encEvent (tt reel nmv : Str) (n m p : Nat)
    (hne : nmv ≠ []) :
    writeEventText (encEvent tt reel nmv n m p) =
    ("001  ".data ++ (reel ++ (List.replicate (8 - reel.length) ' ' ++
      (" ".data ++ (tt ++ "    C ".data))))) ++ '\n' ::
    (("     ".data ++ (tcStr24 n ++ (" ".data ++ (tcStr24 m ++ (" ".data ++
      (tcStr24 0 ++ (" ".data ++ tcStr24 p))))))) ++ '\n' ::
    (("* FROM CLIP NAME: ".data ++ nmv) ++ '\n' :: ['\n'])) :=
  writeEventText_enc reel tt nmv (tcStr24 n) (tcStr24 m) (tcStr24 0)
    (tcStr24 p) hne

theorem parse_encoded (tt : Str) (rc : Char) (rr nm : Str) (n m p : Nat)
    (htt : tt = trackTypeVideo ∨ tt = trackTypeAudio1)
    (hrch : ∀ c ∈ rc :: rr, isSp c = false)
    (hnm : trimSp nm = nm) (hne : nm ≠ []) :
    parseEvents ["TITLE: Timeline".data, "FCM: NON-DROP FRAME".data, [],
      "001  ".data ++ ((rc :: rr) ++
        (List.replicate (8 - (rc :: rr).length) ' ' ++
          (" ".data ++ (tt ++ "    C ".data)))),
      "     ".data ++ (tcStr24 n ++ (" ".data ++ (tcStr24 m ++ (" ".data ++
        (tcStr24 0 ++ (" ".data ++ tcStr24 p)))))),
      "* FROM CLIP NAME: ".data ++ nm, []] =
      .ok ([encEvent tt (rc :: rr) nm n m p], "NON-DROP FRAME".data) := by
  have hl4c : ("001  ".data ++ ((rc :: rr) ++
      (List.replicate (8 - (rc :: rr).length) ' ' ++
        (" ".data ++ (tt ++ "    C ".data))))) =
      '0' :: '0' :: '1' :: ' ' :: ' ' :: ((rc :: rr) ++
        (List.replicate (8 - (rc :: rr).length) ' ' ++ ' ' ::
          (tt ++ (' ' :: ' ' :: ' ' :: ' ' :: 'C' :: ' ' :: [])))) := rfl
  have hm4 : matchEventLine ("001  ".data ++ ((rc :: rr) ++
      (List.replicate (8 - (rc :: rr).length) ' ' ++
        (" ".data ++ (tt ++ "    C ".data))))) =
      some ⟨['0', '0', '1'], rc :: rr, tt, ['C'], []⟩ := by
    rw [hl4c]
    exact matchEventLine_enc tt hrch _ htt
  have hsk4 : isSkipLine (trimSp ("001  ".data ++ ((rc :: rr) ++
      (List.replicate (8 - (rc :: rr).length) ' ' ++
        (" ".data ++ (tt ++ "    C ".data)))))) = false := by
    rw [hl4c, trimSp_head_cons (by decide)]
    exact isSkipLine_cons (by decide) (by decide)
  have htc5 : matchTimecodeLine ("     ".data ++ (tcStr24 n ++ (" ".data ++
      (tcStr24 m ++ (" ".data ++ (tcStr24 0 ++ (" ".data ++ tcStr24 p))))))) =
      some (tcStr24 n, tcStr24 m, tcStr24 0, tcStr24 p) := by
    rw [show ("     ".data ++ (tcStr24 n ++ (" ".data ++ (tcStr24 m ++
      (" ".data ++ (tcStr24 0 ++ (" ".data ++ tcStr24 p))))))) =
      ' ' :: ' ' :: ' ' :: ' ' :: ' ' :: (tcStr24 n ++ (' ' :: (tcStr24 m ++
        (' ' :: (tcStr24 0 ++ (' ' :: tcStr24 p)))))) from rfl]
    exact matchTimecodeLine_enc n m 0 p
  have hm6 : matchEventLine ("* FROM CLIP NAME: ".data ++ nm) = none := by
    rw [show ("* FROM CLIP NAME: ".data ++ nm) = '*' ::
      ([' ', 'F', 'R', 'O', 'M', ' ', 'C', 'L', 'I', 'P', ' ', 'N', 'A', 'M',
        'E', ':', ' '] ++ nm) from rfl]
    exact matchEventLine_star _
  obtain ⟨lc, hlc⟩ : ∃ lc, nm.getLast? = some lc :=
    ⟨nm.getLast hne, List.getLast?_eq_getLast nm hne⟩
  have hlcsp : isSp lc = false := last_not_sp_of_trimSp hnm hlc
  have htr6 : trimSp ("* FROM CLIP NAME: ".data ++ nm) =
      "* FROM CLIP NAME: ".data ++ nm := by
    rw [show ("* FROM CLIP NAME: ".data ++ nm) = '*' ::
      ([' ', 'F', 'R', 'O', 'M', ' ', 'C', 'L', 'I', 'P', ' ', 'N', 'A', 'M',
        'E', ':', ' '] ++ nm) from rfl]
    rw [trimSp_head_cons (by decide)]
    congr 1
    exact trimRightSp_of_last
      (by rw [getLast?_append_right _ hne]; exact hlc) hlcsp
  have hsk6 : isSkipLine (trimSp ("* FROM CLIP NAME: ".data ++ nm)) =
      false := by
    rw [htr6]
    rw [show ("* FROM CLIP NAME: ".data ++ nm) = '*' ::
      ([' ', 'F', 'R', 'O', 'M', ' ', 'C', 'L', 'I', 'P', ' ', 'N', 'A', 'M',
        'E', ':', ' '] ++ nm) from rfl]
    exact isSkipLine_cons (by decide) (by decide)
  have hstep6 : stepOther
      (some (setTimecodes (mkEvent ⟨['0', '0', '1'], rc :: rr, tt, ['C'], []⟩)
        (tcStr24 n, tcStr24 m, tcStr24 0, tcStr24 p)))
      ("* FROM CLIP NAME: ".data ++ nm)
      (trimSp ("* FROM CLIP NAME: ".data ++ nm)) =
      some (encEvent tt (rc :: rr) nm n m p) := by
    rw [htr6, mkEvent_enc]
    rw [show ("* FROM CLIP NAME: ".data ++ nm) = '*' ::
      ([' ', 'F', 'R', 'O', 'M', ' ', 'C', 'L', 'I', 'P', ' ', 'N', 'A', 'M',
        'E', ':', ' '] ++ nm) from rfl]
    rw [stepOther_star]
    rw [show ('*' :: ([' ', 'F', 'R', 'O', 'M', ' ', 'C', 'L', 'I', 'P', ' ',
      'N', 'A', 'M', 'E', ':', ' '] ++ nm)) =
      "* FROM CLIP NAME: ".data ++ nm from rfl]
    rw [applyCommentLine_clipName _ _ hnm]
    rfl
  show parseLoop _ 0 none [] [] = _
  rw [parseLoop_skip (by decide), parseLoop_skip (by decide),
    parseLoop_skip (by decide)]
  rw [parseLoop_event hsk4 hm4 htc5]
  rw [parseLoop_other hsk6 hm6]
  rw [parseLoop_skip (by decide)]
  rw [parseLoop_nil, hstep6]
  rfl

theorem redecode_encoded (tt : Str) (rc : Char) (rr nm : Str) (n m p : Nat)
    (hn : n < 8640000) (hm : m < 8640000) (hp : p < 8640000)
    (htt : tt = trackTypeVideo ∨ tt = trackTypeAudio1)
    (hrch : ∀ c ∈ rc :: rr, isSp c = false)
    (hnm : trimSp nm = nm) (hne : nm ≠ []) (hnl : ('\n' : Char) ∉ nm) :
    ∃ tl2, decodeText24 (
      ("TITLE: Timeline".data ++ '\n' ::
        ("FCM: NON-DROP FRAME".data ++ '\n' :: ['\n'])) ++
      (writeEventText (encEvent tt (rc :: rr) nm n m p) ++ [])) = .ok tl2 ∧
    timelineObs tl2 =
      [((if isAudioTrackTT tt then trackKindAudio else trackKindVideo), nm,
        some (durationFromStartEnd ⟨((n : Nat) : ℚ), 24⟩
          ⟨((m : Nat) : ℚ), 24⟩))] := by
  have hrnl := no_newline_of_no_sp hrch
  have httnl : ('\n' : Char) ∉ tt := by rcases htt with rfl | rfl <;> decide
  have h4nl : ('\n' : Char) ∉ "001  ".data ++ ((rc :: rr) ++
      (List.replicate (8 - (rc :: rr).length) ' ' ++
        (" ".data ++ (tt ++ "    C ".data)))) :=
    no_newline_append (by decide) (no_newline_append hrnl
      (no_newline_append (no_newline_replicate_sp _)
        (no_newline_append (by decide)
          (no_newline_append httnl (by decide)))))
  have h5nl : ('\n' : Char) ∉ "     ".data ++ (tcStr24 n ++ (" ".data ++
      (tcStr24 m ++ (" ".data ++ (tcStr24 0 ++ (" ".data ++ tcStr24 p)))))) :=
    no_newline_append (by decide) (no_newline_append (no_newline_tcStr24 n)
      (no_newline_append (by decide) (no_newline_append (no_newline_tcStr24 m)
        (no_newline_append (by decide) (no_newline_append (no_newline_tcStr24 0)
          (no_newline_append (by decide) (no_newline_tcStr24 p)))))))
  have h6nl : ('\n' : Char) ∉ "* FROM CLIP NAME: ".data ++ nm :=
    no_newline_append (by decide) hnl
  have c4cr : ("001  ".data ++ ((rc :: rr) ++
      (List.replicate (8 - (rc :: rr).length) ' ' ++
        (" ".data ++ (tt ++ "    C ".data))))).getLast? ≠ some '\r' := by
    have hF : ("    C ".data : Str) ≠ [] := by decide
    rw [getLast?_append_right _ (app_ne_nil_of_right _ (app_ne_nil_of_right _
      (app_ne_nil_of_right _ (app_ne_nil_of_right _ hF))))]
    rw [getLast?_append_right _ (app_ne_nil_of_right _
      (app_ne_nil_of_right _ (app_ne_nil_of_right _ hF)))]
    rw [getLast?_append_right _ (app_ne_nil_of_right _
      (app_ne_nil_of_right _ hF))]
    rw [getLast?_append_right _ (app_ne_nil_of_right _ hF)]
    rw [getLast?_append_right _ hF]
    decide
  have c5cr : ("     ".data ++ (tcStr24 n ++ (" ".data ++ (tcStr24 m ++
      (" ".data ++ (tcStr24 0 ++ (" ".data ++
        tcStr24 p))))))).getLast? ≠ some '\r' := by
    have htcp : tcStr24 p ≠ [] := tcStr24_ne_nil p
    rw [getLast?_append_right _ (app_ne_nil_of_right _ (app_ne_nil_of_right _
      (app_ne_nil_of_right _ (app_ne_nil_of_right _ (app_ne_nil_of_right _
        (app_ne_nil_of_right _ htcp))))))]
    rw [getLast?_append_right _ (app_ne_nil_of_right _ (app_ne_nil_of_right _
      (app_ne_nil_of_right _ (app_ne_nil_of_right _
        (app_ne_nil_of_right _ htcp)))))]
    rw [getLast?_append_right _ (app_ne_nil_of_right _ (app_ne_nil_of_right _
      (app_ne_nil_of_right _ (app_ne_nil_of_right _ htcp))))]
    rw [getLast?_append_right _ (app_ne_nil_of_right _ (app_ne_nil_of_right _
      (app_ne_nil_of_right _ htcp)))]
    rw [getLast?_append_right _ (app_ne_nil_of_right _
      (app_ne_nil_of_right _ htcp))]
    rw [getLast?_append_right _ (app_ne_nil_of_right _ htcp)]
    rw [getLast?_append_right _ htcp]
    exact getLast_ne_cr htcp fun c hc => (tcStr24_chars hc).1
  obtain ⟨lc, hlc⟩ : ∃ lc, nm.getLast? = some lc :=
    ⟨nm.getLast hne, List.getLast?_eq_getLast nm hne⟩
  have hlcsp : isSp lc = false := last_not_sp_of_trimSp hnm hlc
  have c6cr : ("* FROM CLIP NAME: ".data ++ nm).getLast? ≠ some '\r' := by
    rw [getLast?_append_right _ hne, hlc]
    intro hcon
    have hlcr := Option.some.inj hcon
    rw [hlcr] at hlcsp
    exact absurd hlcsp (by decide)
  refine ⟨⟨[], [⟨tt,
    if isAudioTrackTT tt then trackKindAudio else trackKindVideo,
    eventSeg 24 rtZeroValue (encEvent tt (rc :: rr) nm n m p)
      ⟨((n : Nat) : ℚ), 24⟩ ⟨((m : Nat) : ℚ), 24⟩ ⟨((0 : Nat) : ℚ), 24⟩ ++
      []⟩]⟩, ?_, ?_⟩
  · unfold decodeText24 decodeText decodeLines
    rw [writeEventText_encEvent _ _ _ _ _ _ hne]
    rw [chain_assemble]
    rw [scanLines_seven _ _ _ h4nl h5nl h6nl c4cr c5cr c6cr]
    simp only [parse_encoded tt rc rr nm n m p htt hrch hnm hne]
    rw [firstSeenKeys_singleton]
    rw [show (encEvent tt (rc :: rr) nm n m p).trackType = tt from rfl]
    unfold eventsToTimelineWith tracksFor createTrack
    rw [show eventsGroup [encEvent tt (rc :: rr) nm n m p] tt =
      [encEvent tt (rc :: rr) nm n m p] from by simp [eventsGroup, encEvent]]
    rw [createTrackGo]
    rw [show (encEvent tt (rc :: rr) nm n m p).sourceIn = tcStr24 n from rfl,
      show (encEvent tt (rc :: rr) nm n m p).sourceOut = tcStr24 m from rfl,
      show (encEvent tt (rc :: rr) nm n m p).recordIn = tcStr24 0 from rfl,
      show (encEvent tt (rc :: rr) nm n m p).recordOut = tcStr24 p from rfl]
    simp only [fromTimecode_tcStr24 hn, fromTimecode_tcStr24 hm,
      fromTimecode_tcStr24 (show (0 : Nat) < 8640000 from by norm_num),
      fromTimecode_tcStr24 hp]
    rw [show createTrackGo 24 (⟨((p : Nat) : ℚ), 24⟩ : RationalTime) [] =
      Except.ok [] from rfl]
    rfl
  · rw [timelineObs_single2, List.append_nil, filterMap_eventSeg]
    have hname2 : (buildClip 24 (encEvent tt (rc :: rr) nm n m p)
        ⟨((n : Nat) : ℚ), 24⟩ ⟨((m : Nat) : ℚ), 24⟩).name = nm := by
      show (if nm = [] then rc :: rr else nm : Str) = nm
      rw [if_neg hne]
    rw [hname2]

/-- **C1.** For every valid single-clip EDL text (one parsed event) whose
source duration equals its record duration, decoding, encoding, and decoding
again yields a timeline whose single clip has the same clip name, the same
duration, and the same track kind as the first decode — provided the clip
name stored by the first decode is nonempty and equal to its own whitespace
trim.  (Without that proviso the claim fails: the freeze-frame `" FF"` suffix
strip can leave a trailing space that the re-decode trims away, see the
counterexample.) -/
theorem c1_round_trip (text : Str) (e : EDLEvent) (fcm : Str) (tl : Timeline)
    (k nm : Str) (d : Option RationalTime)
    (hp : parseEventsText text = .ok ([e], fcm))
    (hd : decodeText24 text = .ok tl)
    (hdur : eventDursMatch 24 e = true)
    (hobs : timelineObs tl = [(k, nm, d)])
    (hnm : trimSp nm = nm) (hne : nm ≠ []) :
    (encodeDefault (some tl)).err = none ∧
    ∃ tl2, decodeText24 (encodeDefault (some tl)).text = .ok tl2 ∧
      timelineObs tl2 = [(k, nm, d)] := by
  have hp2 : parseEvents (scanLines text) = .ok ([e], fcm) := hp
  have hinv : evInv e :=
    parseLoop_inv (scanLines text).length (scanLines text) le_rfl 0 none [] []
      [e] fcm (scanLines_no_newline text) (by simp) (by simp) hp2 e (by simp)
  unfold decodeText24 decodeText decodeLines at hd
  simp only [hp2] at hd
  rw [firstSeenKeys_singleton] at hd
  unfold eventsToTimelineWith tracksFor createTrack at hd
  rw [eventsGroup_singleton] at hd
  rw [createTrackGo] at hd
  rcases hsi : fromTimecode e.sourceIn 24 with msi | si <;>
    simp only [hsi] at hd
  · exact absurd hd (by simp)
  rcases hso : fromTimecode e.sourceOut 24 with mso | so <;>
    simp only [hso] at hd
  · exact absurd hd (by simp)
  rcases hri : fromTimecode e.recordIn 24 with mri | ri <;>
    simp only [hri] at hd
  · exact absurd hd (by simp)
  rcases hro : fromTimecode e.recordOut 24 with mro | ro <;>
    simp only [hro] at hd
  · exact absurd hd (by simp)
  rw [show createTrackGo 24 ro [] = Except.ok [] from rfl] at hd
  rw [show tracksFor 24 [e] ([] : List Str) = Except.ok [] from rfl] at hd
  simp only at hd
  rw [Except.ok.injEq] at hd
  subst hd
  obtain ⟨n, hn, rfl⟩ := fromTimecode_ok_24 hsi
  obtain ⟨m, hm, rfl⟩ := fromTimecode_ok_24 hso
  rw [timelineObs_single2, List.append_nil, filterMap_eventSeg] at hobs
  simp only [List.cons.injEq, Prod.mk.injEq, and_true] at hobs
  obtain ⟨hk, hbn, hdd⟩ := hobs
  subst hk
  subst hbn
  subst hdd
  have hnmnl : ('\n' : Char) ∉
      (buildClip 24 e ⟨((n : Nat) : ℚ), 24⟩ ⟨((m : Nat) : ℚ), 24⟩).name :=
    buildClip_name_no_newline hinv
  have hitems : eventSeg 24 rtZeroValue e ⟨((n : Nat) : ℚ), 24⟩
      ⟨((m : Nat) : ℚ), 24⟩ ri ++ [] =
      transPart 24 e ++ [TrackItem.clipItem
        (buildClip 24 e ⟨((n : Nat) : ℚ), 24⟩ ⟨((m : Nat) : ℚ), 24⟩)] := by
    unfold eventSeg
    rw [gapPart_zero, List.nil_append, List.append_nil]
  rw [hitems]
  -- the encoded event, for an arbitrary track-type string
  have hencAll : ∀ tt : Str, ∃ rn,
      encClipEvent 24 8 tt
        (buildClip 24 e ⟨((n : Nat) : ℚ), 24⟩ ⟨((m : Nat) : ℚ), 24⟩) 1
        (rtNew 0 24) editTypeCut 0 =
      .ok (encEvent tt (SanitizeReelName rn 8)
        (buildClip 24 e ⟨((n : Nat) : ℚ), 24⟩ ⟨((m : Nat) : ℚ), 24⟩).name
        n m (m - n), ⟨((m : Nat) : ℚ) - ((n : Nat) : ℚ), 24⟩) := by
    intro tt
    obtain ⟨rn, henc⟩ := encClipEvent_shape 24 8 tt
      (buildClip 24 e ⟨((n : Nat) : ℚ), 24⟩ ⟨((m : Nat) : ℚ), 24⟩)
      ⟨⟨((n : Nat) : ℚ), 24⟩, durationFromStartEnd ⟨((n : Nat) : ℚ), 24⟩
        ⟨((m : Nat) : ℚ), 24⟩⟩ rfl 1 (rtNew 0 24) editTypeCut 0
    rw [show (⟨⟨((n : Nat) : ℚ), 24⟩, durationFromStartEnd
        ⟨((n : Nat) : ℚ), 24⟩ ⟨((m : Nat) : ℚ), 24⟩⟩ : TimeRange).startTime =
      (⟨((n : Nat) : ℚ), 24⟩ : RationalTime) from rfl] at henc
    rw [show (⟨⟨((n : Nat) : ℚ), 24⟩, durationFromStartEnd
        ⟨((n : Nat) : ℚ), 24⟩ ⟨((m : Nat) : ℚ), 24⟩⟩ : TimeRange).duration =
      durationFromStartEnd ⟨((n : Nat) : ℚ), 24⟩ ⟨((m : Nat) : ℚ), 24⟩
      from rfl] at henc
    rw [durationFromStartEnd_24] at henc
    rw [show (rtNew 0 24).add
        (⟨((m : Nat) : ℚ) - ((n : Nat) : ℚ), 24⟩ : RationalTime) =
        (⟨((m : Nat) : ℚ) - ((n : Nat) : ℚ), 24⟩ : RationalTime) from by
      rw [show rtNew 0 24 = (⟨(0 : ℚ), 24⟩ : RationalTime) from rfl, rt_add_24]
      simp only [zero_add]] at henc
    rw [show (⟨((n : Nat) : ℚ), 24⟩ : RationalTime).add
        (⟨((m : Nat) : ℚ) - ((n : Nat) : ℚ), 24⟩ : RationalTime) =
        (⟨((m : Nat) : ℚ), 24⟩ : RationalTime) from by
      rw [rt_add_24]
      congr 1
      ring] at henc
    rw [show formatTimecode 24 (rtNew 0 24) = tcStr24 0 from by
      rw [show rtNew 0 24 = (⟨((0 : Nat) : ℚ), 24⟩ : RationalTime) from by
        show (⟨(0 : ℚ), 24⟩ : RationalTime) = _
        congr 1]
      exact formatTimecode_24 (by norm_num)] at henc
    rw [formatTimecode_sub24 n m hm] at henc
    rw [formatTimecode_24 hn, formatTimecode_24 hm] at henc
    exact ⟨rn, henc⟩
  -- encode and re-decode, by track kind
  by_cases hA : isAudioTrackTT e.trackType = true
  · rw [if_pos hA]
    obtain ⟨rn, henc⟩ := hencAll trackTypeAudio1
    obtain ⟨hrnn, hrch, hrlen⟩ := SanitizeReelName_props rn
    rcases hreel : SanitizeReelName rn 8 with _ | ⟨rc, rr⟩
    · exact absurd hreel hrnn
    rw [hreel] at henc
    have hrch' : ∀ c ∈ rc :: rr, isSp c = false := by
      intro c hc
      rw [← hreel] at hc
      exact isReelCh_not_sp (hrch c hc)
    have hchild : encChildren 24 8 trackTypeAudio1
        (transPart 24 e ++ [TrackItem.clipItem
          (buildClip 24 e ⟨((n : Nat) : ℚ), 24⟩ ⟨((m : Nat) : ℚ), 24⟩)]) 1
        (rtNew 0 24) =
        ([encEvent trackTypeAudio1 (rc :: rr)
          (buildClip 24 e ⟨((n : Nat) : ℚ), 24⟩ ⟨((m : Nat) : ℚ), 24⟩).name
          n m (m - n)], none) := by
      rcases transPart_shape 24 e with htp | ⟨nm', ty', io', oo', htp⟩ <;>
        rw [htp]
      · rw [List.nil_append]
        exact encChildren_single_clip 24 8 _ _ 1 _ henc
      · rw [List.cons_append, List.nil_append, encChildren_trans_cons]
        exact encChildren_single_clip 24 8 _ _ 1 _ henc
    have hEO := encodeTimeline_single_audio e.trackType _ hchild
    rw [hEO]
    refine ⟨rfl, ?_⟩
    rw [show headerText ⟨[], [⟨e.trackType, trackKindAudio,
      transPart 24 e ++ [TrackItem.clipItem
        (buildClip 24 e ⟨((n : Nat) : ℚ), 24⟩ ⟨((m : Nat) : ℚ), 24⟩)]⟩]⟩ =
      "TITLE: Timeline".data ++ '\n' ::
        ("FCM: NON-DROP FRAME".data ++ '\n' :: ['\n']) from rfl]
    obtain ⟨tl2, hdec2, hobs2⟩ := redecode_encoded trackTypeAudio1 rc rr
      (buildClip 24 e ⟨((n : Nat) : ℚ), 24⟩ ⟨((m : Nat) : ℚ), 24⟩).name
      n m (m - n) hn hm (by omega) (.inr rfl) hrch' hnm hne hnmnl
    refine ⟨tl2, hdec2, ?_⟩
    rw [hobs2]
    rw [show (if isAudioTrackTT trackTypeAudio1 then trackKindAudio
      else trackKindVideo) = trackKindAudio from rfl]
  · rw [if_neg hA]
    obtain ⟨rn, henc⟩ := hencAll trackTypeVideo
    obtain ⟨hrnn, hrch, hrlen⟩ := SanitizeReelName_props rn
    rcases hreel : SanitizeReelName rn 8 with _ | ⟨rc, rr⟩
    · exact absurd hreel hrnn
    rw [hreel] at henc
    have hrch' : ∀ c ∈ rc :: rr, isSp c = false := by
      intro c hc
      rw [← hreel] at hc
      exact isReelCh_not_sp (hrch c hc)
    have hchild : encChildren 24 8 trackTypeVideo
        (transPart 24 e ++ [TrackItem.clipItem
          (buildClip 24 e ⟨((n : Nat) : ℚ), 24⟩ ⟨((m : Nat) : ℚ), 24⟩)]) 1
        (rtNew 0 24) =
        ([encEvent trackTypeVideo (rc :: rr)
          (buildClip 24 e ⟨((n : Nat) : ℚ), 24⟩ ⟨((m : Nat) : ℚ), 24⟩).name
          n m (m - n)], none) := by
      rcases transPart_shape 24 e with htp | ⟨nm', ty', io', oo', htp⟩ <;>
        rw [htp]
      · rw [List.nil_append]
        exact encChildren_single_clip 24 8 _ _ 1 _ henc
      · rw [List.cons_append, List.nil_append, encChildren_trans_cons]
        exact encChildren_single_clip 24 8 _ _ 1 _ henc
    have hEO := encodeTimeline_single_video e.trackType _ hchild
    rw [hEO]
    refine ⟨rfl, ?_⟩
    rw [show headerText ⟨[], [⟨e.trackType, trackKindVideo,
      transPart 24 e ++ [TrackItem.clipItem
        (buildClip 24 e ⟨((n : Nat) : ℚ), 24⟩ ⟨((m : Nat) : ℚ), 24⟩)]⟩]⟩ =
      "TITLE: Timeline".data ++ '\n' ::
        ("FCM: NON-DROP FRAME".data ++ '\n' :: ['\n']) from rfl]
    obtain ⟨tl2, hdec2, hobs2⟩ := redecode_encoded trackTypeVideo rc rr
      (buildClip 24 e ⟨((n : Nat) : ℚ), 24⟩ ⟨((m : Nat) : ℚ), 24⟩).name
      n m (m - n) hn hm (by omega) (.inl rfl) hrch' hnm hne hnmnl
    refine ⟨tl2, hdec2, ?_⟩
    rw [hobs2]
    rw [show (if isAudioTrackTT trackTypeVideo then trackKindAudio
      else trackKindVideo) = trackKindVideo from rfl]

instance exceptDecEq {ε α : Type} [DecidableEq ε] [DecidableEq α] :
    DecidableEq (Except ε α)
  | .error x, .error y =>
    if h : x = y then isTrue (by rw [h])
    else isFalse (by intro hc; injection hc with h2; exact h h2)
  | .error _, .ok _ => isFalse (by intro hc; cases hc)
  | .ok _, .error _ => isFalse (by intro hc; cases hc)
  | .ok x, .ok y =>
    if h : x = y then isTrue (by rw [h])
    else isFalse (by intro hc; injection hc with h2; exact h h2)

def c1Text : Str :=
  ("001 AX V C\n00:00:00:01 00:00:00:03 00:00:01:00 00:00:01:02\n" ++
   "* FROM CLIP NAME: clip1").data

def c1Event : EDLEvent :=
  { eventNumber := 1
    reelName := "AX".data
    trackType := "V".data
    editType := "C".data
    sourceIn := "00:00:00:01".data
    sourceOut := "00:00:00:03".data
    recordIn := "00:00:01:00".data
    recordOut := "00:00:01:02".data
    clipName := "clip1".data }

def c1Tl : Timeline :=
  ⟨[], [⟨"V".data, trackKindVideo,
    [TrackItem.clipItem
      ⟨"clip1".data,
       some (MediaReference.external "AX".data "AX".data
         (some ⟨⟨1, 24⟩, ⟨2, 24⟩⟩)),
       some ⟨⟨1, 24⟩, ⟨2, 24⟩⟩, none, none, [], []⟩]⟩]⟩

set_option maxHeartbeats 2000000 in
theorem c1_witness :
    (parseEventsText c1Text = .ok ([c1Event], []) ∧
     decodeText24 c1Text = .ok c1Tl ∧
     eventDursMatch 24 c1Event = true ∧
     timelineObs c1Tl = [(trackKindVideo, "clip1".data, some ⟨2, 24⟩)] ∧
     trimSp "clip1".data = "clip1".data ∧ "clip1".data ≠ ([] : Str)) ∧
    ((encodeDefault (some c1Tl)).err = none ∧
     ∃ tl2, decodeText24 (encodeDefault (some c1Tl)).text = .ok tl2 ∧
       timelineObs tl2 = [(trackKindVideo, "clip1".data, some ⟨2, 24⟩)]) :=
  ⟨⟨by decide, by decide, by decide, by decide, by decide, by decide⟩,
   c1_round_trip c1Text c1Event [] c1Tl trackKindVideo "clip1".data
     (some ⟨2, 24⟩) (by decide) (by decide) (by decide) (by decide)
     (by decide) (by decide)⟩

def c1BadText : Str :=
  ("001 AX V C\n00:00:00:00 00:00:00:02 00:00:01:00 00:00:01:02\n" ++
   "* FROM CLIP NAME: a  FF\n* FREEZE FRAME").data

set_option maxHeartbeats 2000000 in
/-- The original claim's round trip is not name-preserving on this valid
single-clip input with matching source/record durations: the freeze-frame
`" FF"` strip leaves the first decode's clip name as `"a "`, and the second
decode trims it to `"a"`. -/
theorem c1_counterexample :
    (parseEventsText c1BadText).map
      (fun q => q.1.map fun e => eventDursMatch 24 e) = .ok [true] ∧
    (decodeText24 c1BadText).map
      (fun tl => (timelineObs tl).map fun q => q.2.1) = .ok [['a', ' ']] ∧
    (decodeText24 c1BadText).map
      (fun tl => (encodeDefault (some tl)).err) = .ok none ∧
    (decodeText24 c1BadText).map (fun tl =>
      (decodeText24 (encodeDefault (some tl)).text).map fun tl2 =>
        (timelineObs tl2).map fun q => q.2.1) = .ok (.ok [['a']]) :=
  ⟨by decide, by decide, by decide, by decide⟩
